import Mathlib

/-!
Verification of the VERP token codec of nti.mailer (src/nti/mailer/_verp.py).

Byte strings are modelled as lists of natural numbers below 256.  The code of
the repository (the functions of _verp.py) is translated directly; its
collaborators that are not part of the repository source (the itsdangerous
Signer, urllib percent-encoding, base64url, and rfc822 address parsing and
formatting) are modelled from the specification of their boundary behaviour.
-/

namespace NtiMailer

/-- Byte values of a string literal (all our literals are ASCII). -/
def bytesOf (s : String) : List Nat := s.toList.map Char.toNat

/-! ## Adler-32 checksum and 4-byte packing (zlib.adler32 / struct.pack) -/

/-- One step of the Adler-32 state transition on state (s1, s2). -/
def adlerStep (p : Nat × Nat) (b : Nat) : Nat × Nat :=
  ((p.1 + b) % 65521, (p.2 + ((p.1 + b) % 65521)) % 65521)

/-- Modelled from the spec: the 32-bit Adler checksum of a byte list
(zlib.adler32, starting from state (1, 0)). -/
def adler32 (s : List Nat) : Nat :=
  let p := s.foldl adlerStep (1, 0)
  p.2 * 65536 + p.1

/-- Modelled from the spec: packing of a 32-bit checksum into 4 bytes with a
fixed-endianness integer encoding (struct.pack of the checksum; the byte
values of the two's-complement native pack equal those of the unsigned
little-endian pack used here). -/
def packInt32LE (n : Nat) : List Nat :=
  [n % 256, n / 256 % 256, n / 65536 % 256, n / 16777216 % 256]

/-! ## The default digest primitive (_InsecureAdlerCRC32Digest) -/

/-- The accumulated state of the default digest primitive: the byte buffer
seen so far (attribute val of _InsecureAdlerCRC32Digest). -/
structure InsecureAdlerCRC32Digest where
  val : List Nat
deriving DecidableEq

/-- The declared output size of the digest, in bytes. -/
def InsecureAdlerCRC32Digest.digest_size : Nat := 4

/-- The declared block size of the digest, in bytes. -/
def InsecureAdlerCRC32Digest.block_size : Nat := 64

/-- A fresh digest object with an empty buffer. -/
def InsecureAdlerCRC32Digest.init : InsecureAdlerCRC32Digest := ⟨[]⟩

/-- update appends the new data to the accumulated buffer. -/
def InsecureAdlerCRC32Digest.update (d : InsecureAdlerCRC32Digest) (v : List Nat) :
    InsecureAdlerCRC32Digest := ⟨d.val ++ v⟩

/-- copy returns an independent digest object with the same buffer. -/
def InsecureAdlerCRC32Digest.copy (d : InsecureAdlerCRC32Digest) :
    InsecureAdlerCRC32Digest := ⟨d.val⟩

/-- digest returns the Adler-32 checksum of the accumulated buffer packed
into 4 bytes. -/
def InsecureAdlerCRC32Digest.digest (d : InsecureAdlerCRC32Digest) : List Nat :=
  packInt32LE (adler32 d.val)

/-! ## Percent-encoding (urllib quote / unquote, modelled at the boundary) -/

/-- Bytes left unencoded by urllib quote: letters, digits, underscore,
period, hyphen, and the default safe character, the slash. -/
def isSafeByte (b : Nat) : Bool :=
  decide (65 ≤ b ∧ b ≤ 90) || decide (97 ≤ b ∧ b ≤ 122) ||
  decide (48 ≤ b ∧ b ≤ 57) || decide (b = 95 ∨ b = 46 ∨ b = 45 ∨ b = 47)

/-- The uppercase hexadecimal digit with value k (for k below 16). -/
def hexDigitOf (k : Nat) : Nat := if k < 10 then 48 + k else 55 + k

/-- Recognizes an ASCII hexadecimal digit of either case. -/
def isHexDigit (b : Nat) : Bool :=
  decide ((48 ≤ b ∧ b ≤ 57) ∨ (65 ≤ b ∧ b ≤ 70) ∨ (97 ≤ b ∧ b ≤ 102))

/-- The value of an ASCII hexadecimal digit. -/
def hexVal (b : Nat) : Nat :=
  if b ≤ 57 then b - 48 else if b ≤ 70 then b - 55 else b - 87

/-- Modelled from the spec: URL percent-encoding (urllib quote) — safe bytes
pass through, every other byte becomes a percent sign followed by two
uppercase hexadecimal digits. -/
def quote : List Nat → List Nat
  | [] => []
  | b :: rest =>
    (if isSafeByte b then [b] else [37, hexDigitOf (b / 16), hexDigitOf (b % 16)]) ++ quote rest

/-- Modelled from the spec: URL percent-decoding (urllib unquote) — a percent
sign followed by two hexadecimal digits becomes the corresponding byte, and a
percent sign not followed by two hexadecimal digits is left as is. -/
def unquote : List Nat → List Nat
  | [] => []
  | b :: rest =>
    if b = 37 then
      match rest with
      | a :: b2 :: rest2 =>
        if isHexDigit a ∧ isHexDigit b2 then (hexVal a * 16 + hexVal b2) :: unquote rest2
        else 37 :: unquote (a :: b2 :: rest2)
      | other => 37 :: unquote other
    else b :: unquote rest

/-! ## Base64url, unpadded (modelled at the boundary) -/

/-- The base64url alphabet: the character for a 6-bit value. -/
def b64char (k : Nat) : Nat :=
  if k < 26 then 65 + k
  else if k < 52 then 71 + k
  else if k < 62 then k - 4
  else if k = 62 then 45
  else 95

/-- The 6-bit value of a base64url character, or none. -/
def b64val (c : Nat) : Option Nat :=
  if 65 ≤ c ∧ c ≤ 90 then some (c - 65)
  else if 97 ≤ c ∧ c ≤ 122 then some (c - 71)
  else if 48 ≤ c ∧ c ≤ 57 then some (c + 4)
  else if c = 45 then some 62
  else if c = 95 then some 63
  else none

/-- Modelled from the spec: unpadded base64url encoding of a byte list. -/
def b64encodeRaw : List Nat → List Nat
  | [] => []
  | [a] => [b64char (a / 4), b64char (a % 4 * 16)]
  | [a, b] => [b64char (a / 4), b64char (a % 4 * 16 + b / 16), b64char (b % 16 * 4)]
  | a :: b :: c :: rest =>
    b64char (a / 4) :: b64char (a % 4 * 16 + b / 16) ::
    b64char (b % 16 * 4 + c / 64) :: b64char (c % 64) :: b64encodeRaw rest

/-- Modelled from the spec: unpadded base64url decoding.  A length of one
modulo four is malformed; trailing bits beyond the produced bytes are
dropped, as the reference decoder does. -/
def b64decodeRaw : List Nat → Option (List Nat)
  | [] => some []
  | [_] => none
  | [c1, c2] => do
    let v1 ← b64val c1
    let v2 ← b64val c2
    some [v1 * 4 + v2 / 16]
  | [c1, c2, c3] => do
    let v1 ← b64val c1
    let v2 ← b64val c2
    let v3 ← b64val c3
    some [v1 * 4 + v2 / 16, v2 % 16 * 16 + v3 / 4]
  | c1 :: c2 :: c3 :: c4 :: rest => do
    let v1 ← b64val c1
    let v2 ← b64val c2
    let v3 ← b64val c3
    let v4 ← b64val c4
    let r ← b64decodeRaw rest
    some ((v1 * 4 + v2 / 16) :: (v2 % 16 * 16 + v3 / 4) :: (v3 % 4 * 64 + v4) :: r)

/-! ## Python string-splitting primitives -/

/-- Split a list at the last occurrence of a byte: some (before, after) when
the byte occurs, none otherwise. -/
def splitLast (c : Nat) (s : List Nat) : Option (List Nat × List Nat) :=
  if c ∈ s then
    some (((s.reverse.dropWhile (· ≠ c)).tail).reverse, (s.reverse.takeWhile (· ≠ c)).reverse)
  else none

/-- Python rsplit with maxsplit one: two parts when the separator occurs,
otherwise the whole string as a single part. -/
def pyRsplit1 (c : Nat) (s : List Nat) : List (List Nat) :=
  match splitLast c s with
  | some (x, y) => [x, y]
  | none => [s]

/-- Python split on a one-byte separator with no maxsplit. -/
def pySplit (c : Nat) : List Nat → List (List Nat)
  | [] => [[]]
  | b :: rest =>
    if b = c then [] :: pySplit c rest
    else
      match pySplit c rest with
      | [] => [[b]]
      | p :: ps => (b :: p) :: ps

/-- The runtime errors the translated code can surface. -/
inductive PyErr where
  | valueError
  | indexError
  | configurationError
deriving DecidableEq

instance {ε α : Type} [DecidableEq ε] [DecidableEq α] : DecidableEq (Except ε α) := fun x y =>
  match x, y with
  | .ok a, .ok b =>
    if h : a = b then .isTrue (congrArg Except.ok h)
    else .isFalse (fun hh => h (Except.ok.inj hh))
  | .error a, .error b =>
    if h : a = b then .isTrue (congrArg Except.error h)
    else .isFalse (fun hh => h (Except.error.inj hh))
  | .ok _, .error _ => .isFalse (fun hh => Except.noConfusion hh)
  | .error _, .ok _ => .isFalse (fun hh => Except.noConfusion hh)

/-- Python subscripting: ok on an index in range, IndexError otherwise. -/
def pyIndex {α : Type} (l : List α) (i : Nat) : Except PyErr α :=
  match l.get? i with
  | some x => .ok x
  | none => .error .indexError

/-- Python tuple unpacking of a two-element pattern: ValueError unless the
list has exactly two elements. -/
def pyUnpack2 {α : Type} (l : List α) : Except PyErr (α × α) :=
  match l with
  | [x, y] => .ok (x, y)
  | _ => .error .valueError

/-! ## rfc822 address parsing and formatting (modelled at the boundary) -/

/-- Drop leading space bytes. -/
def lstripSpace (s : List Nat) : List Nat := s.dropWhile (· = 32)

/-- Drop leading and trailing space bytes. -/
def stripSpace (s : List Nat) : List Nat :=
  ((lstripSpace ((lstripSpace s).reverse)).reverse)

/-- Strip spaces and one layer of surrounding double quotes from a realname
region. -/
def parseName (s : List Nat) : List Nat :=
  let t := stripSpace s
  match t with
  | 34 :: rest => if rest ≠ [] ∧ rest.getLast? = some 34 then rest.dropLast else t
  | _ => t

/-- Modelled from the spec: rfc822.parseaddr at its boundary — when the
string has an angle bracket, the realname is the stripped and unquoted part
before the first opening bracket and the address is the part between it and
the following closing bracket; otherwise the whole string is the address. -/
def parseaddr (s : List Nat) : List Nat × List Nat :=
  if 60 ∈ s then
    (parseName (s.takeWhile (· ≠ 60)), ((s.dropWhile (· ≠ 60)).tail).takeWhile (· ≠ 62))
  else ([], s)

/-- Modelled from the spec: rfc822.dump_address_pair — a quoted realname
followed by the address in angle brackets, or the bare address when the
realname is empty. -/
def dump_address_pair (realname addr : List Nat) : List Nat :=
  if realname ≠ [] then 34 :: realname ++ [34, 32, 60] ++ addr ++ [62] else addr

/-! ## The Signer (itsdangerous, modelled from the spec) -/

/-- Modelled from the spec: the Signer value — a secret key, a
purpose-specific salt, and a separator byte (itsdangerous Signer with the
default separator, a period). -/
structure SignerM where
  secret : List Nat
  salt : List Nat
  sep : Nat
deriving DecidableEq

/-- Modelled from the spec: per-salt subkey derivation — a one-way digest
combination of the salt and the secret, independent of the message. -/
def SignerM.derivedKey (s : SignerM) : List Nat :=
  packInt32LE (adler32 (s.salt ++ s.secret))

/-- Modelled from the spec: the authentication code over a message — the
digest of the derived subkey followed by the raw message. -/
def SignerM.macBytes (s : SignerM) (msg : List Nat) : List Nat :=
  packInt32LE (adler32 (s.derivedKey ++ msg))

/-- Modelled from the spec: get_signature returns just the base64url-encoded
authentication code of a message. -/
def SignerM.get_signature (s : SignerM) (msg : List Nat) : List Nat :=
  b64encodeRaw (s.macBytes msg)

/-- Modelled from the spec: sign returns the message, the separator, and the
encoded authentication code. -/
def SignerM.sign (s : SignerM) (msg : List Nat) : List Nat :=
  msg ++ s.sep :: s.get_signature msg

/-- Modelled from the spec: unsign splits on the last separator, decodes the
signature part, and compares it with the recomputed code; a missing
separator, an undecodable signature, or a mismatch is a BadSignature error
(the error value). -/
def SignerM.unsign (s : SignerM) (signed : List Nat) : Except Unit (List Nat) :=
  match splitLast s.sep signed with
  | none => .error ()
  | some (value, sig) =>
    match b64decodeRaw sig with
    | none => .error ()
    | some sigBytes => if sigBytes = s.macBytes value then .ok value else .error ()

/-! ## The mailer policy collaborator and signer construction -/

/-- The pluggable IMailerPolicy utility: a signer secret and an optional
default sender. -/
structure MailerPolicy where
  signer_secret : List Nat
  default_sender : Option (List Nat)
deriving DecidableEq

/-- The secret: from the policy when one is registered, else the default. -/
def _get_signer_secret (policy : Option MailerPolicy) (default_secret : List Nat) : List Nat :=
  match policy with
  | some p => p.signer_secret
  | none => default_secret

/-- The hardcoded default secret of the module. -/
def dollarIdKey : List Nat := bytesOf (r"$Id$")

/-- The salt compiled into the signer construction site. -/
def emailRecipientSalt : List Nat := bytesOf (r"email recipient")

/-- Modelled from the spec where itsdangerous is concerned: signer
construction fails with ConfigurationError when the resolved secret is
empty, and otherwise yields a Signer with the fixed salt and the default
period separator. -/
def _make_signer (policy : Option MailerPolicy) (default_key : List Nat) :
    Except PyErr SignerM :=
  let secret_key := _get_signer_secret policy default_key
  if secret_key = [] then .error .configurationError
  else .ok ⟨secret_key, emailRecipientSalt, 46⟩

/-- A falsy default_key falls back to the module default secret. -/
def __make_signer (policy : Option MailerPolicy) (default_key : List Nat) :
    Except PyErr SignerM :=
  if default_key = [] then _make_signer policy dollarIdKey
  else _make_signer policy default_key

/-- The resolved secret a construction request will use. -/
def resolvedSecret (policy : Option MailerPolicy) (default_key : List Nat) : List Nat :=
  _get_signer_secret policy (if default_key = [] then dollarIdKey else default_key)

/-! ## Default sender and realname -/

/-- The default sender from the policy, when any. -/
def _get_default_sender (policy : Option MailerPolicy) : Option (List Nat) :=
  policy.bind (·.default_sender)

/-- The default realname byte string. -/
def nextThoughtName : List Nat := bytesOf (r"NextThought")

/-- The default realname: parsed and stripped from the policy default
sender when that is truthy, else the hardcoded name. -/
def _find_default_realname (policy : Option MailerPolicy) : List Nat :=
  if (_get_default_sender policy).getD [] = [] then nextThoughtName
  else if stripSpace (parseaddr ((_get_default_sender policy).getD [])).1 = [] then
    nextThoughtName
  else stripSpace (parseaddr ((_get_default_sender policy).getD [])).1

/-! ## The codec (_verp.py) -/

/-- A recipient object at the boundary: whether it adapts to
IEmailAddressable, and the id of the principal it adapts to, when any. -/
structure Recipient where
  email_addressable : Bool
  principal : Option (List Nat)
deriving DecidableEq

/-- The distinct principal ids resolved from the recipients: recipients
adaptable to IEmailAddressable, adapted to principals, with absent
principals discarded and duplicate ids collapsed. -/
def resolvedIds (recipients : List Recipient) : List (List Nat) :=
  (((recipients.filter (·.email_addressable)).filterMap (·.principal))).dedup

/-- Translation of _sign: percent-quote the principal id bytes and append
the separator and the signature computed over the raw bytes. -/
def _sign (signer : SignerM) (principal_ids : List Nat) : List Nat :=
  quote principal_ids ++ signer.sep :: signer.get_signature principal_ids

/-- Translation of realname_from_recipients: parse the from address, fail on
an empty pair, substitute the default realname for an empty one, and dump
the pair back. -/
def realname_from_recipients (policy : Option MailerPolicy) (fromaddr : List Nat) :
    Except PyErr (List Nat) :=
  let pair := parseaddr fromaddr
  if pair.1 = [] ∧ pair.2 = [] then .error .valueError
  else
    let realname := if pair.1 = [] then _find_default_realname policy else pair.1
    .ok (dump_address_pair realname pair.2)

/-- Translation of verp_from_recipients: when the recipients resolve to
exactly one principal id, sign it and splice the token into the local part
before the at sign (the split of the address on the at sign unpacking into
exactly two names); otherwise pass the address through unmodified. -/
def verp_from_recipients (policy : Option MailerPolicy) (fromaddr : List Nat)
    (recipients : List Recipient) (default_key : List Nat) :
    Except PyErr (List Nat) := do
  let rn ← realname_from_recipients policy fromaddr
  let pair := parseaddr rn
  match resolvedIds recipients with
  | [pid] => do
    let signer ← __make_signer policy default_key
    let token := _sign signer pid
    let localdomain ← pyUnpack2 (pySplit 64 pair.2)
    .ok (dump_address_pair pair.1 (localdomain.1 ++ 43 :: token ++ 64 :: localdomain.2))
  | _ => .ok (dump_address_pair pair.1 pair.2)

/-- Translation of principal_ids_from_verp: empty on a falsy input or one
with no plus byte, empty when the parsed address has no plus byte, the
token region being what follows the last plus and precedes the first at
sign, empty when it lacks the separator, and the unsigned principal ids
split on commas, with a BadSignature converted into an empty result. -/
def principal_ids_from_verp (policy : Option MailerPolicy) (fromaddr : List Nat)
    (default_key : List Nat) : Except PyErr (List (List Nat)) :=
  if fromaddr = [] ∨ ¬ 43 ∈ fromaddr then .ok []
  else
    let addr := (parseaddr fromaddr).2
    if ¬ 43 ∈ addr then .ok []
    else do
      let signer ← __make_signer policy default_key
      let after_plus ← pyIndex (pyRsplit1 43 addr) 1
      let signed_and_encoded ← pyIndex (pySplit 64 after_plus) 0
      if ¬ signer.sep ∈ signed_and_encoded then .ok []
      else do
        let parts ← pyUnpack2 (pyRsplit1 signer.sep signed_and_encoded)
        let decoded_pids := unquote parts.1
        let signed := decoded_pids ++ signer.sep :: parts.2
        match signer.unsign signed with
        | .error _ => .ok []
        | .ok pids => .ok (pySplit 44 pids)

/-! ## Lemmas about the splitting primitives -/

theorem pySplit_ne_nil (c : Nat) : ∀ s : List Nat, pySplit c s ≠ []
  | [] => by simp [pySplit]
  | b :: rest => by
    simp only [pySplit]
    split
    · simp
    · split
      · simp
      · simp

theorem pySplit_not_mem {c : Nat} : ∀ {s : List Nat}, ¬ c ∈ s → pySplit c s = [s]
  | [], _ => by simp [pySplit]
  | b :: rest, h => by
    have hb : ¬ b = c := fun e => h (e ▸ List.mem_cons_self b rest)
    have hr : ¬ c ∈ rest := fun m => h (List.mem_cons_of_mem _ m)
    simp only [pySplit, if_neg hb]
    rw [pySplit_not_mem hr]

theorem pySplit_append {c : Nat} : ∀ {xs : List Nat} (ys : List Nat), ¬ c ∈ xs →
    pySplit c (xs ++ c :: ys) = xs :: pySplit c ys
  | [], ys, _ => by simp [pySplit]
  | b :: xs', ys, h => by
    have hb : ¬ b = c := fun e => h (e ▸ List.mem_cons_self b xs')
    have hx : ¬ c ∈ xs' := fun m => h (List.mem_cons_of_mem _ m)
    simp only [List.cons_append, pySplit, if_neg hb, List.append_eq]
    rw [pySplit_append ys hx]

theorem pySplit_length (c : Nat) : ∀ s : List Nat, (pySplit c s).length = s.count c + 1
  | [] => by simp [pySplit]
  | b :: rest => by
    have ih := pySplit_length c rest
    by_cases hbc : b = c
    · subst hbc
      simp [pySplit, ih, List.count_cons_self]
    · simp only [pySplit, if_neg hbc]
      rcases hps : pySplit c rest with _ | ⟨p, ps⟩
      · exact absurd hps (pySplit_ne_nil c rest)
      · rw [hps] at ih
        rw [List.count_cons_of_ne (fun e : c = b => hbc e.symm)]
        show ((b :: p) :: ps).length = List.count c rest + 1
        simp only [List.length_cons] at ih ⊢
        omega

theorem splitLast_append {c : Nat} (xs ys : List Nat) (h : ¬ c ∈ ys) :
    splitLast c (xs ++ c :: ys) = some (xs, ys) := by
  have hmem : c ∈ xs ++ c :: ys :=
    List.mem_append_right _ (List.mem_cons_self c ys)
  have hrev : (xs ++ c :: ys).reverse = ys.reverse ++ c :: xs.reverse := by
    simp
  have hpos : ∀ a ∈ ys.reverse, (decide (a ≠ c)) = true := by
    intro a ha
    have ha' : a ∈ ys := List.mem_reverse.mp ha
    rw [decide_eq_true_eq]
    exact fun e => h (e ▸ ha')
  have hc : (decide (c ≠ c)) = false := by simp
  unfold splitLast
  rw [if_pos hmem, hrev, List.takeWhile_append_of_pos hpos,
    List.dropWhile_append_of_pos hpos, List.takeWhile_cons, List.dropWhile_cons, hc]
  simp

theorem splitLast_of_mem {c : Nat} {s : List Nat} (h : c ∈ s) :
    ∃ x y, splitLast c s = some (x, y) := by
  unfold splitLast
  rw [if_pos h]
  exact ⟨_, _, rfl⟩

theorem pyRsplit1_append {c : Nat} (xs ys : List Nat) (h : ¬ c ∈ ys) :
    pyRsplit1 c (xs ++ c :: ys) = [xs, ys] := by
  unfold pyRsplit1
  rw [splitLast_append xs ys h]

/-! ## Lemmas about percent-encoding -/

theorem unquote_cons_ne {b : Nat} (hb : ¬ b = 37) : ∀ l : List Nat,
    unquote (b :: l) = b :: unquote l
  | [] => by simp [unquote, hb]
  | [a] => by simp [unquote, hb]
  | a :: b2 :: rest2 => by simp [unquote, hb]

theorem unquote_pct {a b2 : Nat} (ha : isHexDigit a = true) (hb2 : isHexDigit b2 = true)
    (l : List Nat) :
    unquote (37 :: a :: b2 :: l) = (hexVal a * 16 + hexVal b2) :: unquote l := by
  simp [unquote, ha, hb2]

theorem hexDigitOf_good : ∀ k, k < 16 →
    isHexDigit (hexDigitOf k) = true ∧ hexVal (hexDigitOf k) = k := by decide

theorem isSafeByte_ne_37 {b : Nat} (h : isSafeByte b = true) : ¬ b = 37 := by
  intro e
  subst e
  simp [isSafeByte] at h

theorem unquote_quote : ∀ {s : List Nat}, (∀ b ∈ s, b < 256) → unquote (quote s) = s
  | [], _ => rfl
  | b :: rest, h => by
    have hb : b < 256 := h b (List.mem_cons_self b rest)
    have hrest : ∀ x ∈ rest, x < 256 := fun x hx => h x (List.mem_cons_of_mem _ hx)
    by_cases hs : isSafeByte b
    · simp only [quote, if_pos hs, List.singleton_append]
      rw [unquote_cons_ne (isSafeByte_ne_37 hs), unquote_quote hrest]
    · simp only [quote, if_neg hs, List.cons_append, List.nil_append]
      have h1 := hexDigitOf_good (b / 16) (by omega)
      have h2 := hexDigitOf_good (b % 16) (by omega)
      rw [unquote_pct h1.1 h2.1, unquote_quote hrest, h1.2, h2.2]
      have : b / 16 * 16 + b % 16 = b := by omega
      rw [this]

theorem not_mem_quote {c : Nat} (h1 : ¬ isSafeByte c = true) (h2 : ¬ c = 37)
    (h3 : ∀ k, ¬ c = hexDigitOf k) : ∀ s : List Nat, ¬ c ∈ quote s
  | [] => by simp [quote]
  | b :: rest => by
    simp only [quote]
    intro hmem
    rcases List.mem_append.mp hmem with hl | hr
    · by_cases hs : isSafeByte b
      · rw [if_pos hs] at hl
        rcases List.mem_singleton.mp hl with rfl
        exact h1 hs
      · rw [if_neg hs] at hl
        rcases hl with _ | ⟨_, hl⟩
        · exact h2 rfl
        rcases hl with _ | ⟨_, hl⟩
        · exact h3 (b / 16) rfl
        rcases hl with _ | ⟨_, hl⟩
        · exact h3 (b % 16) rfl
        · cases hl
    · exact not_mem_quote h1 h2 h3 rest hr

theorem hexDigitOf_targets : ∀ c, c = 43 ∨ c = 46 ∨ c = 60 ∨ c = 62 ∨ c = 64 →
    ∀ k, ¬ c = hexDigitOf k := by
  intro c hc k
  unfold hexDigitOf
  split <;> omega

theorem not_43_mem_quote (s : List Nat) : ¬ 43 ∈ quote s :=
  not_mem_quote (by decide) (by decide) (hexDigitOf_targets 43 (by tauto)) s

theorem not_60_mem_quote (s : List Nat) : ¬ 60 ∈ quote s :=
  not_mem_quote (by decide) (by decide) (hexDigitOf_targets 60 (by tauto)) s

theorem not_62_mem_quote (s : List Nat) : ¬ 62 ∈ quote s :=
  not_mem_quote (by decide) (by decide) (hexDigitOf_targets 62 (by tauto)) s

theorem not_64_mem_quote (s : List Nat) : ¬ 64 ∈ quote s :=
  not_mem_quote (by decide) (by decide) (hexDigitOf_targets 64 (by tauto)) s

/-! ## Lemmas about base64url and the signature bytes -/

theorem b64val_b64char : ∀ k, k < 64 → b64val (b64char k) = some k := by decide

theorem b64char_avoid : ∀ k, k < 64 →
    ¬ b64char k = 43 ∧ ¬ b64char k = 46 ∧ ¬ b64char k = 60 ∧
    ¬ b64char k = 62 ∧ ¬ b64char k = 64 := by decide

theorem packInt32LE_length (n : Nat) : (packInt32LE n).length = 4 := rfl

theorem packInt32LE_lt (n : Nat) : ∀ x ∈ packInt32LE n, x < 256 := by
  intro x hx
  simp only [packInt32LE, List.mem_cons, List.not_mem_nil, or_false] at hx
  rcases hx with rfl | rfl | rfl | rfl <;> exact Nat.mod_lt _ (by omega)

theorem b64_roundtrip4 {a b c d : Nat} (ha : a < 256) (hb : b < 256) (hc : c < 256)
    (hd : d < 256) : b64decodeRaw (b64encodeRaw [a, b, c, d]) = some [a, b, c, d] := by
  have e1 := b64val_b64char (a / 4) (by omega)
  have e2 := b64val_b64char (a % 4 * 16 + b / 16) (by omega)
  have e3 := b64val_b64char (b % 16 * 4 + c / 64) (by omega)
  have e4 := b64val_b64char (c % 64) (by omega)
  have e5 := b64val_b64char (d / 4) (by omega)
  have e6 := b64val_b64char (d % 4 * 16) (by omega)
  simp only [b64encodeRaw, b64decodeRaw, e1, e2, e3, e4, e5, e6, Option.bind_eq_bind,
    Option.some_bind, Option.some.injEq, List.cons.injEq, and_true]
  omega

theorem not_mem_get_signature {c : Nat} (hc : ∀ k, k < 64 → ¬ b64char k = c)
    (s : SignerM) (msg : List Nat) : ¬ c ∈ s.get_signature msg := by
  unfold SignerM.get_signature SignerM.macBytes
  generalize adler32 (s.derivedKey ++ msg) = n
  simp only [packInt32LE, b64encodeRaw]
  intro hmem
  simp only [List.mem_cons, List.not_mem_nil, or_false] at hmem
  have h1 : n % 256 < 256 := Nat.mod_lt _ (by omega)
  have h2 : n / 256 % 256 < 256 := Nat.mod_lt _ (by omega)
  have h3 : n / 65536 % 256 < 256 := Nat.mod_lt _ (by omega)
  have h4 : n / 16777216 % 256 < 256 := Nat.mod_lt _ (by omega)
  rcases hmem with rfl | rfl | rfl | rfl | rfl | rfl
  · exact hc _ (by omega) rfl
  · exact hc _ (by omega) rfl
  · exact hc _ (by omega) rfl
  · exact hc _ (by omega) rfl
  · exact hc _ (by omega) rfl
  · exact hc _ (by omega) rfl

theorem not_43_mem_sig (s : SignerM) (msg : List Nat) : ¬ 43 ∈ s.get_signature msg :=
  not_mem_get_signature (fun k hk => (b64char_avoid k hk).1) s msg

theorem not_46_mem_sig (s : SignerM) (msg : List Nat) : ¬ 46 ∈ s.get_signature msg :=
  not_mem_get_signature (fun k hk => (b64char_avoid k hk).2.1) s msg

theorem not_60_mem_sig (s : SignerM) (msg : List Nat) : ¬ 60 ∈ s.get_signature msg :=
  not_mem_get_signature (fun k hk => (b64char_avoid k hk).2.2.1) s msg

theorem not_62_mem_sig (s : SignerM) (msg : List Nat) : ¬ 62 ∈ s.get_signature msg :=
  not_mem_get_signature (fun k hk => (b64char_avoid k hk).2.2.2.1) s msg

theorem not_64_mem_sig (s : SignerM) (msg : List Nat) : ¬ 64 ∈ s.get_signature msg :=
  not_mem_get_signature (fun k hk => (b64char_avoid k hk).2.2.2.2) s msg

theorem b64decode_get_signature (s : SignerM) (msg : List Nat) :
    b64decodeRaw (s.get_signature msg) = some (s.macBytes msg) := by
  unfold SignerM.get_signature SignerM.macBytes
  generalize adler32 (s.derivedKey ++ msg) = n
  simp only [packInt32LE]
  exact b64_roundtrip4 (by omega) (by omega) (by omega) (by omega)

theorem unsign_of_sign (s1 s2 : SignerM) (msg : List Nat) (h1 : s1.sep = 46)
    (hsep : s2.sep = s1.sep) :
    s2.unsign (s1.sign msg) =
      if s1.macBytes msg = s2.macBytes msg then .ok msg else .error () := by
  have hnm : ¬ (46 : Nat) ∈ s1.get_signature msg := not_46_mem_sig s1 msg
  unfold SignerM.sign SignerM.unsign
  rw [hsep, h1]
  simp only [splitLast_append msg (s1.get_signature msg) hnm,
    b64decode_get_signature]

/-! ## Lemmas about the rfc822 boundary model -/

theorem stripSpace_quoted (r : List Nat) :
    stripSpace ((34 :: r) ++ [34, 32]) = (34 :: r) ++ [34] := by
  unfold stripSpace lstripSpace
  have e1 : ((34 :: r) ++ [34, 32]).dropWhile (· = 32) = (34 :: r) ++ [34, 32] := by
    simp [List.dropWhile_cons]
  rw [e1]
  have e2 : ((34 :: r) ++ [34, 32]).reverse = 32 :: 34 :: (r.reverse ++ [34]) := by
    simp
  rw [e2]
  have e3 : (32 :: 34 :: (r.reverse ++ [34])).dropWhile (· = 32) =
      34 :: (r.reverse ++ [34]) := by
    simp [List.dropWhile_cons]
  rw [e3]
  simp

theorem parseName_quoted (r : List Nat) : parseName ((34 :: r) ++ [34, 32]) = r := by
  unfold parseName
  rw [stripSpace_quoted]
  simp only [List.cons_append]
  simp [List.getLast?_concat, List.dropLast_concat]

theorem parseaddr_split (xs ys : List Nat) (hxs : ∀ b ∈ xs, ¬ b = 60) :
    parseaddr (xs ++ 60 :: ys) = (parseName xs, ys.takeWhile (· ≠ 62)) := by
  have hxs' : ∀ b ∈ xs, (decide (b ≠ 60)) = true := by
    intro b hb
    rw [decide_eq_true_eq]
    exact hxs b hb
  have hmem : (60 : Nat) ∈ xs ++ 60 :: ys :=
    List.mem_append_right _ (List.mem_cons_self _ _)
  have h60f : (decide ((60 : Nat) ≠ 60)) = false := by decide
  unfold parseaddr
  rw [if_pos hmem, List.takeWhile_append_of_pos hxs',
    List.dropWhile_append_of_pos hxs', List.takeWhile_cons, List.dropWhile_cons, h60f]
  simp only [Bool.false_eq_true, if_false, List.append_nil, List.tail_cons]

theorem takeWhile_ne_62 (a : List Nat) (h62 : ¬ 62 ∈ a) :
    (a ++ [62]).takeWhile (· ≠ 62) = a := by
  have hys : ∀ b ∈ a, (decide (b ≠ 62)) = true := by
    intro b hb
    rw [decide_eq_true_eq]
    exact fun e => h62 (e ▸ hb)
  have h62f : (decide ((62 : Nat) ≠ 62)) = false := by decide
  rw [List.takeWhile_append_of_pos hys, List.takeWhile_cons, h62f]
  simp

theorem parseaddr_dump (r a : List Nat) (hr : r ≠ []) (h60 : ¬ 60 ∈ r)
    (h62 : ¬ 62 ∈ a) : parseaddr (dump_address_pair r a) = (r, a) := by
  have hdump : dump_address_pair r a = ((34 :: r) ++ [34, 32]) ++ 60 :: (a ++ [62]) := by
    unfold dump_address_pair
    rw [if_pos hr]
    simp
  have hxs : ∀ b ∈ (34 :: r) ++ [34, 32], ¬ b = 60 := by
    intro b hb e
    subst e
    simp only [List.mem_append, List.mem_cons, List.not_mem_nil] at hb
    rcases hb with h | h
    · rcases h with h | h
      · omega
      · exact h60 h
    · rcases h with h | h | h
      · omega
      · omega
      · exact h
  rw [hdump, parseaddr_split _ _ hxs, parseName_quoted, takeWhile_ne_62 a h62]

/-! ## Lemmas about realname resolution and signer construction -/

/-- The realname the codec will use: the parsed one, or the default when it
is empty. -/
def realnameFix (policy : Option MailerPolicy) (r : List Nat) : List Nat :=
  if r = [] then _find_default_realname policy else r

theorem find_default_ne_nil (policy : Option MailerPolicy) :
    _find_default_realname policy ≠ [] := by
  unfold _find_default_realname
  split_ifs with h1 h2
  · decide
  · decide
  · exact h2

theorem realnameFix_ne_nil (policy : Option MailerPolicy) (r : List Nat) :
    realnameFix policy r ≠ [] := by
  unfold realnameFix
  split_ifs with h
  · exact find_default_ne_nil policy
  · exact h

theorem realname_ok (policy : Option MailerPolicy) (f r a : List Nat)
    (hpa : parseaddr f = (r, a)) (hne : ¬ (r = [] ∧ a = [])) :
    realname_from_recipients policy f =
      .ok (dump_address_pair (realnameFix policy r) a) := by
  unfold realname_from_recipients realnameFix
  rw [hpa]
  simp only []
  rw [if_neg hne]

theorem make_signer_ok (policy : Option MailerPolicy) (dk : List Nat)
    (h : resolvedSecret policy dk ≠ []) :
    __make_signer policy dk = .ok ⟨resolvedSecret policy dk, emailRecipientSalt, 46⟩ := by
  unfold resolvedSecret at h
  unfold __make_signer _make_signer resolvedSecret
  by_cases hdk : dk = []
  · simp only [if_pos hdk] at h ⊢
    rw [if_neg h]
  · simp only [if_neg hdk] at h ⊢
    rw [if_neg h]

theorem make_signer_fails (policy : Option MailerPolicy) (dk : List Nat)
    (h : resolvedSecret policy dk = []) :
    __make_signer policy dk = .error .configurationError := by
  unfold resolvedSecret at h
  unfold __make_signer _make_signer
  by_cases hdk : dk = []
  · simp only [if_pos hdk] at h ⊢
    rw [if_pos h]
  · simp only [if_neg hdk] at h ⊢
    rw [if_pos h]

/-! ## Lemmas about the codec pipeline -/

theorem except_bind_ok {ε α β : Type} (a : α) (f : α → Except ε β) :
    (Except.ok a : Except ε α) >>= f = f a := rfl

theorem except_bind_error {ε α β : Type} (e : ε) (f : α → Except ε β) :
    (Except.error e : Except ε α) >>= f = .error e := rfl

theorem pyIndex_pair1 {α : Type} (x y : α) : pyIndex [x, y] 1 = .ok y := rfl

theorem pyIndex_cons0 {α : Type} (x : α) (t : List α) : pyIndex (x :: t) 0 = .ok x := rfl

theorem pyUnpack2_pair {α : Type} (x y : α) : pyUnpack2 [x, y] = .ok (x, y) := rfl

theorem pyUnpack2_fails {α : Type} (l : List α) (h : l.length ≠ 2) :
    pyUnpack2 l = .error .valueError := by
  match l with
  | [] => rfl
  | [x] => rfl
  | [x, y] => exact absurd rfl h
  | x :: y :: z :: t => rfl

theorem verp_encode (policy : Option MailerPolicy) (f : List Nat)
    (recips : List Recipient) (dk r lcl domain pid : List Nat)
    (hpa : parseaddr f = (r, lcl ++ 64 :: domain))
    (h60r : ¬ 60 ∈ realnameFix policy r)
    (h62a : ¬ 62 ∈ lcl ++ 64 :: domain)
    (hids : resolvedIds recips = [pid])
    (hsec : resolvedSecret policy dk ≠ [])
    (h64l : ¬ 64 ∈ lcl) (h64d : ¬ 64 ∈ domain) :
    verp_from_recipients policy f recips dk =
      .ok (dump_address_pair (realnameFix policy r)
        (lcl ++ 43 :: _sign ⟨resolvedSecret policy dk, emailRecipientSalt, 46⟩ pid
           ++ 64 :: domain)) := by
  have hne : ¬ (r = [] ∧ lcl ++ 64 :: domain = []) := by
    rintro ⟨-, ha⟩
    simp at ha
  unfold verp_from_recipients
  rw [realname_ok policy f r _ hpa hne, except_bind_ok,
    parseaddr_dump _ _ (realnameFix_ne_nil policy r) h60r h62a]
  simp only [hids]
  rw [make_signer_ok policy dk hsec, except_bind_ok,
    pySplit_append domain h64l, pySplit_not_mem h64d, pyUnpack2_pair, except_bind_ok]

theorem verp_passthrough (policy : Option MailerPolicy) (f : List Nat)
    (recips : List Recipient) (dk r a : List Nat)
    (hpa : parseaddr f = (r, a)) (hne : ¬ (r = [] ∧ a = []))
    (h60r : ¬ 60 ∈ realnameFix policy r) (h62a : ¬ 62 ∈ a)
    (hlen : (resolvedIds recips).length ≠ 1) :
    verp_from_recipients policy f recips dk =
      .ok (dump_address_pair (realnameFix policy r) a) := by
  unfold verp_from_recipients
  rw [realname_ok policy f r a hpa hne, except_bind_ok,
    parseaddr_dump _ _ (realnameFix_ne_nil policy r) h60r h62a]
  rcases hres : resolvedIds recips with _ | ⟨x, _ | ⟨y, zs⟩⟩
  · rfl
  · rw [hres] at hlen
    simp at hlen
  · rfl

theorem verp_unpack_fails (policy : Option MailerPolicy) (f : List Nat)
    (recips : List Recipient) (dk r a pid : List Nat)
    (hpa : parseaddr f = (r, a)) (hne : ¬ (r = [] ∧ a = []))
    (h60r : ¬ 60 ∈ realnameFix policy r) (h62a : ¬ 62 ∈ a)
    (hids : resolvedIds recips = [pid])
    (hsec : resolvedSecret policy dk ≠ [])
    (hcount : a.count 64 ≠ 1) :
    verp_from_recipients policy f recips dk = .error .valueError := by
  unfold verp_from_recipients
  rw [realname_ok policy f r a hpa hne, except_bind_ok,
    parseaddr_dump _ _ (realnameFix_ne_nil policy r) h60r h62a]
  simp only [hids]
  rw [make_signer_ok policy dk hsec, except_bind_ok]
  rw [pyUnpack2_fails (pySplit 64 a) (by rw [pySplit_length]; omega), except_bind_error]

theorem decode_with_sig (policy : Option MailerPolicy) (dk rf lcl domain q sg : List Nat)
    (hrf : rf ≠ []) (h60rf : ¬ 60 ∈ rf)
    (h62l : ¬ 62 ∈ lcl) (h62d : ¬ 62 ∈ domain) (h43d : ¬ 43 ∈ domain)
    (hq43 : ¬ 43 ∈ q) (hq62 : ¬ 62 ∈ q) (hq64 : ¬ 64 ∈ q)
    (hs43 : ¬ 43 ∈ sg) (hs46 : ¬ 46 ∈ sg) (hs62 : ¬ 62 ∈ sg) (hs64 : ¬ 64 ∈ sg)
    (hsec : resolvedSecret policy dk ≠ []) :
    principal_ids_from_verp policy
      (dump_address_pair rf (lcl ++ 43 :: (q ++ 46 :: sg) ++ 64 :: domain)) dk =
      match SignerM.unsign ⟨resolvedSecret policy dk, emailRecipientSalt, 46⟩
          (unquote q ++ 46 :: sg) with
      | .error _ => .ok []
      | .ok pids => .ok (pySplit 44 pids) := by
  have hsep : (⟨resolvedSecret policy dk, emailRecipientSalt, 46⟩ : SignerM).sep = 46 := rfl
  have h62a2 : ¬ 62 ∈ lcl ++ 43 :: (q ++ 46 :: sg) ++ 64 :: domain := by
    simp [List.mem_append, List.mem_cons, h62l, h62d, hq62, hs62]
  have hfa_ne : dump_address_pair rf (lcl ++ 43 :: (q ++ 46 :: sg) ++ 64 :: domain) ≠ [] := by
    unfold dump_address_pair
    rw [if_pos hrf]
    simp
  have h43fa : (43 : Nat) ∈ dump_address_pair rf
      (lcl ++ 43 :: (q ++ 46 :: sg) ++ 64 :: domain) := by
    unfold dump_address_pair
    rw [if_pos hrf]
    simp
  have h43a2 : (43 : Nat) ∈ lcl ++ 43 :: (q ++ 46 :: sg) ++ 64 :: domain := by
    simp
  unfold principal_ids_from_verp
  rw [if_neg (not_or.mpr ⟨hfa_ne, not_not_intro h43fa⟩)]
  rw [parseaddr_dump rf _ hrf h60rf h62a2]
  simp only []
  rw [if_neg (not_not_intro h43a2)]
  rw [make_signer_ok policy dk hsec, except_bind_ok]
  have hys43 : ¬ 43 ∈ (q ++ 46 :: sg) ++ 64 :: domain := by
    simp [List.mem_append, List.mem_cons, hq43, hs43, h43d]
  have hshape : lcl ++ 43 :: (q ++ 46 :: sg) ++ 64 :: domain =
      lcl ++ 43 :: ((q ++ 46 :: sg) ++ 64 :: domain) := by
    simp
  rw [hshape, pyRsplit1_append _ _ hys43, pyIndex_pair1, except_bind_ok]
  have hQS64 : ¬ 64 ∈ q ++ 46 :: sg := by
    simp [List.mem_append, List.mem_cons, hq64, hs64]
  rw [pySplit_append domain hQS64, pyIndex_cons0, except_bind_ok]
  have h46sae : (46 : Nat) ∈ q ++ 46 :: sg :=
    List.mem_append_right _ (List.mem_cons_self _ _)
  rw [hsep, if_neg (not_not_intro h46sae)]
  rw [pyRsplit1_append _ _ hs46, pyUnpack2_pair, except_bind_ok]

theorem decode_encoded (policy : Option MailerPolicy) (dk rf lcl domain id : List Nat)
    (hrf : rf ≠ []) (h60rf : ¬ 60 ∈ rf)
    (h62l : ¬ 62 ∈ lcl) (h62d : ¬ 62 ∈ domain)
    (h43d : ¬ 43 ∈ domain)
    (hid256 : ∀ b ∈ id, b < 256) (h44 : ¬ 44 ∈ id)
    (hsec : resolvedSecret policy dk ≠ []) :
    principal_ids_from_verp policy
      (dump_address_pair rf
        (lcl ++ 43 :: _sign ⟨resolvedSecret policy dk, emailRecipientSalt, 46⟩ id
           ++ 64 :: domain)) dk = .ok [id] := by
  have hQ43 := not_43_mem_quote id
  have hQ62 := not_62_mem_quote id
  have hQ64 := not_64_mem_quote id
  have hS43 :=
    not_43_mem_sig ⟨resolvedSecret policy dk, emailRecipientSalt, 46⟩ id
  have hS46 :=
    not_46_mem_sig ⟨resolvedSecret policy dk, emailRecipientSalt, 46⟩ id
  have hS62 :=
    not_62_mem_sig ⟨resolvedSecret policy dk, emailRecipientSalt, 46⟩ id
  have hS64 :=
    not_64_mem_sig ⟨resolvedSecret policy dk, emailRecipientSalt, 46⟩ id
  have hsep : (⟨resolvedSecret policy dk, emailRecipientSalt, 46⟩ : SignerM).sep = 46 := rfl
  have h62a2 : ¬ 62 ∈ lcl ++ 43 :: _sign ⟨resolvedSecret policy dk, emailRecipientSalt, 46⟩ id
      ++ 64 :: domain := by
    simp [_sign, List.mem_append, List.mem_cons, h62l, h62d, hQ62, hS62, hsep]
  have hfa_ne : dump_address_pair rf
      (lcl ++ 43 :: _sign ⟨resolvedSecret policy dk, emailRecipientSalt, 46⟩ id
        ++ 64 :: domain) ≠ [] := by
    unfold dump_address_pair
    rw [if_pos hrf]
    simp
  have h43fa : (43 : Nat) ∈ dump_address_pair rf
      (lcl ++ 43 :: _sign ⟨resolvedSecret policy dk, emailRecipientSalt, 46⟩ id
        ++ 64 :: domain) := by
    unfold dump_address_pair
    rw [if_pos hrf]
    simp
  have h43a2 : (43 : Nat) ∈ lcl ++ 43 :: _sign ⟨resolvedSecret policy dk, emailRecipientSalt, 46⟩ id
      ++ 64 :: domain := by
    simp
  unfold principal_ids_from_verp
  rw [if_neg (not_or.mpr ⟨hfa_ne, not_not_intro h43fa⟩)]
  rw [parseaddr_dump rf _ hrf h60rf h62a2]
  simp only []
  rw [if_neg (not_not_intro h43a2)]
  rw [make_signer_ok policy dk hsec, except_bind_ok]
  have hys43 : ¬ 43 ∈ _sign ⟨resolvedSecret policy dk, emailRecipientSalt, 46⟩ id
      ++ 64 :: domain := by
    simp [_sign, List.mem_append, List.mem_cons, hQ43, hS43, h43d, hsep]
  have hshape : lcl ++ 43 :: _sign ⟨resolvedSecret policy dk, emailRecipientSalt, 46⟩ id
      ++ 64 :: domain =
      lcl ++ 43 :: (_sign ⟨resolvedSecret policy dk, emailRecipientSalt, 46⟩ id
        ++ 64 :: domain) := by
    simp
  rw [hshape, pyRsplit1_append _ _ hys43, pyIndex_pair1, except_bind_ok]
  have hsignshape : _sign ⟨resolvedSecret policy dk, emailRecipientSalt, 46⟩ id
      ++ 64 :: domain =
      (quote id ++ 46 :: SignerM.get_signature ⟨resolvedSecret policy dk, emailRecipientSalt, 46⟩ id)
        ++ 64 :: domain := rfl
  have hQS64 : ¬ 64 ∈ quote id
      ++ 46 :: SignerM.get_signature ⟨resolvedSecret policy dk, emailRecipientSalt, 46⟩ id := by
    simp [List.mem_append, List.mem_cons, hQ64, hS64]
  rw [hsignshape, pySplit_append domain hQS64, pyIndex_cons0, except_bind_ok]
  have h46sae : (46 : Nat) ∈ quote id
      ++ 46 :: SignerM.get_signature ⟨resolvedSecret policy dk, emailRecipientSalt, 46⟩ id :=
    List.mem_append_right _ (List.mem_cons_self _ _)
  rw [hsep, if_neg (not_not_intro h46sae)]
  rw [pyRsplit1_append _ _ hS46, pyUnpack2_pair, except_bind_ok]
  simp only []
  rw [unquote_quote hid256]
  have hunsign : SignerM.unsign ⟨resolvedSecret policy dk, emailRecipientSalt, 46⟩
      (id ++ 46 :: SignerM.get_signature ⟨resolvedSecret policy dk, emailRecipientSalt, 46⟩ id)
      = .ok id := by
    unfold SignerM.unsign
    rw [hsep, splitLast_append id _ hS46]
    simp only [b64decode_get_signature, if_pos]
  rw [hunsign]
  show Except.ok (pySplit 44 id) = Except.ok [id]
  rw [pySplit_not_mem h44]

/-! ## Claim theorems -/

/-- C2: constructing the signer with an empty resolved secret key fails with
ConfigurationError instead of returning a signer. -/
theorem c2_empty_secret_configuration_error :
    ∀ (policy : Option MailerPolicy) (default_key : List Nat),
      resolvedSecret policy default_key = [] →
      __make_signer policy default_key = .error .configurationError :=
  fun policy dk h => make_signer_fails policy dk h

/-- Witness for C2 at a policy whose signer secret is empty. -/
theorem c2_empty_secret_configuration_error_witness :
    __make_signer (some ⟨[], none⟩) [] = .error .configurationError :=
  c2_empty_secret_configuration_error (some ⟨[], none⟩) [] rfl

/-- C3 (amended): decode returns an empty result for every candidate address
with no plus byte — in particular decode of plain at-sign addresses and of
strings with no at sign at all; the original claim that every candidate
without an at sign decodes to an empty result is refuted by
c3_no_at_counterexample. -/
theorem c3_no_plus_empty_amended :
    ∀ (policy : Option MailerPolicy) (f dk : List Nat),
      ¬ (43 : Nat) ∈ f → principal_ids_from_verp policy f dk = .ok [] := by
  intro policy f dk h
  unfold principal_ids_from_verp
  rw [if_pos (Or.inr h)]

/-- Witness for C3 at the two addresses named by the specification. -/
theorem c3_no_plus_empty_amended_witness :
    principal_ids_from_verp none (bytesOf (r"plain@example.com")) [] = .ok [] ∧
      principal_ids_from_verp none (bytesOf (r"no-at-sign")) [] = .ok [] :=
  ⟨c3_no_plus_empty_amended none (bytesOf (r"plain@example.com")) [] (by decide),
    c3_no_plus_empty_amended none (bytesOf (r"no-at-sign")) [] (by decide)⟩

/-- Counterexample for C3: a candidate with no at sign whose portion after
the last plus is a validly signed token decodes to a non-empty result. -/
theorem c3_no_at_counterexample :
    principal_ids_from_verp none (bytesOf (r"x+id.WQLoCA")) [] = .ok [[105, 100]] ∧
      ¬ (64 : Nat) ∈ bytesOf (r"x+id.WQLoCA") ∧
      ¬ principal_ids_from_verp none (bytesOf (r"x+id.WQLoCA")) [] = .ok [] :=
  ⟨by decide, by decide, by decide⟩

/-- C4: with a well-configured signer, decode never surfaces an error on any
input: a missing plus, a missing separator and a signature-verification
failure each yield an ok result, so some list is always returned. -/
theorem c4_decode_total :
    ∀ (policy : Option MailerPolicy) (f dk : List Nat),
      resolvedSecret policy dk ≠ [] →
      ∃ l, principal_ids_from_verp policy f dk = .ok l := by
  intro policy f dk hsec
  unfold principal_ids_from_verp
  by_cases h1 : f = [] ∨ ¬ (43 : Nat) ∈ f
  · rw [if_pos h1]
    exact ⟨[], rfl⟩
  · rw [if_neg h1]
    by_cases h2 : ¬ (43 : Nat) ∈ (parseaddr f).2
    · rw [if_pos h2]
      exact ⟨[], rfl⟩
    · rw [if_neg h2]
      rw [make_signer_ok policy dk hsec, except_bind_ok]
      have h43 : (43 : Nat) ∈ (parseaddr f).2 := not_not.mp h2
      obtain ⟨x, y, hxy⟩ := splitLast_of_mem h43
      have hr1 : pyRsplit1 43 (parseaddr f).2 = [x, y] := by
        unfold pyRsplit1
        rw [hxy]
      rw [hr1, pyIndex_pair1, except_bind_ok]
      rcases hps : pySplit 64 y with _ | ⟨p0, ps⟩
      · exact absurd hps (pySplit_ne_nil 64 y)
      · rw [pyIndex_cons0, except_bind_ok]
        have hsep : (⟨resolvedSecret policy dk, emailRecipientSalt, 46⟩ : SignerM).sep = 46 :=
          rfl
        rw [hsep]
        by_cases h3 : ¬ (46 : Nat) ∈ p0
        · rw [if_pos h3]
          exact ⟨[], rfl⟩
        · rw [if_neg h3]
          have h46 : (46 : Nat) ∈ p0 := not_not.mp h3
          obtain ⟨u, v, huv⟩ := splitLast_of_mem h46
          have hr2 : pyRsplit1 46 p0 = [u, v] := by
            unfold pyRsplit1
            rw [huv]
          rw [hr2, pyUnpack2_pair, except_bind_ok]
          simp only []
          generalize SignerM.unsign ⟨resolvedSecret policy dk, emailRecipientSalt, 46⟩
              (unquote u ++ 46 :: v) = res
          rcases res with e | pids
          · exact ⟨[], rfl⟩
          · exact ⟨pySplit 44 pids, rfl⟩

/-- Witness for C4 at a concrete input and the default secret. -/
theorem c4_decode_total_witness :
    ∃ l, principal_ids_from_verp none (bytesOf (r"user+junk.token@host")) [] = .ok l :=
  c4_decode_total none (bytesOf (r"user+junk.token@host")) [] (by decide)

/-- C6 (amended): a token signed under one salt fails verification under a
signer with a different salt and the same secret whenever the authentication
codes derived under the two salts differ; the universal form of the claim is
refuted by c6_salt_isolation_counterexample, since the weak default digest
lets distinct salts derive identical keys. -/
theorem c6_salt_isolation_amended :
    ∀ (secret salt1 salt2 msg : List Nat),
      ¬ SignerM.macBytes ⟨secret, salt2, 46⟩ msg = SignerM.macBytes ⟨secret, salt1, 46⟩ msg →
      SignerM.unsign ⟨secret, salt2, 46⟩ (SignerM.sign ⟨secret, salt1, 46⟩ msg) =
        .error () := by
  intro secret salt1 salt2 msg hne
  rw [unsign_of_sign ⟨secret, salt1, 46⟩ ⟨secret, salt2, 46⟩ msg rfl rfl]
  exact if_neg (fun e => hne e.symm)

/-- Witness for C6 at two salts whose authentication codes differ. -/
theorem c6_salt_isolation_amended_witness :
    SignerM.unsign ⟨bytesOf (r"s3cr3t"), bytesOf (r"b"), 46⟩
      (SignerM.sign ⟨bytesOf (r"s3cr3t"), bytesOf (r"a"), 46⟩ (bytesOf (r"principal-42"))) =
      .error () :=
  c6_salt_isolation_amended (bytesOf (r"s3cr3t")) (bytesOf (r"a")) (bytesOf (r"b"))
    (bytesOf (r"principal-42")) (by decide)

/-- Counterexample for C6: two different salts under the same secret whose
derived keys collide under the Adler digest, so a token signed under the
first verifies under the second. -/
theorem c6_salt_isolation_counterexample :
    ¬ bytesOf (r"email recipient") = bytesOf (r"email redgqient") ∧
      SignerM.unsign ⟨bytesOf (r"s3cr3t"), bytesOf (r"email redgqient"), 46⟩
        (SignerM.sign ⟨bytesOf (r"s3cr3t"), bytesOf (r"email recipient"), 46⟩
          (bytesOf (r"principal-42"))) = .ok (bytesOf (r"principal-42")) :=
  ⟨by decide, by decide⟩

theorem foldl_update (chunks : List (List Nat)) :
    ∀ v : List Nat,
      chunks.foldl InsecureAdlerCRC32Digest.update ⟨v⟩ = ⟨v ++ chunks.flatten⟩ := by
  induction chunks with
  | nil => intro v; simp [InsecureAdlerCRC32Digest.update]
  | cons c cs ih =>
    intro v
    simp only [List.foldl_cons, InsecureAdlerCRC32Digest.update, List.flatten_cons]
    rw [ih (v ++ c), List.append_assoc]

/-- C7: after any sequence of update calls the digest is exactly
digest_size (four) bytes — the Adler-32 checksum of all accumulated data
packed into four bytes — and the computation is total. -/
theorem c7_digest_four_bytes :
    ∀ chunks : List (List Nat),
      ((chunks.foldl InsecureAdlerCRC32Digest.update InsecureAdlerCRC32Digest.init).digest).length
          = InsecureAdlerCRC32Digest.digest_size ∧
        (chunks.foldl InsecureAdlerCRC32Digest.update InsecureAdlerCRC32Digest.init).digest
          = packInt32LE (adler32 chunks.flatten) := by
  intro chunks
  have h : chunks.foldl InsecureAdlerCRC32Digest.update InsecureAdlerCRC32Digest.init =
      ⟨[] ++ chunks.flatten⟩ := foldl_update chunks []
  rw [h, List.nil_append]
  exact ⟨packInt32LE_length _, rfl⟩

/-- C1 (amended): for every non-empty byte-string id containing neither an
at sign nor a comma, and every well-formed from address with exactly one at
sign whose recipients resolve to exactly that id, decoding the encoded
address recovers exactly the one original id; the original claim, which
admits ids containing commas, is refuted by c1_round_trip_counterexample. -/
theorem c1_round_trip_amended (policy : Option MailerPolicy) (f : List Nat)
    (recips : List Recipient) (dk r lcl domain id : List Nat)
    (hpa : parseaddr f = (r, lcl ++ 64 :: domain))
    (h60r : ¬ 60 ∈ realnameFix policy r)
    (h62l : ¬ 62 ∈ lcl) (h62d : ¬ 62 ∈ domain)
    (h64l : ¬ 64 ∈ lcl) (h64d : ¬ 64 ∈ domain)
    (h43d : ¬ 43 ∈ domain)
    (hids : resolvedIds recips = [id])
    (hid_ne : id ≠ []) (hid64 : ¬ 64 ∈ id) (hid44 : ¬ 44 ∈ id)
    (hid256 : ∀ b ∈ id, b < 256)
    (hsec : resolvedSecret policy dk ≠ []) :
    ∃ out, verp_from_recipients policy f recips dk = .ok out ∧
      principal_ids_from_verp policy out dk = .ok [id] := by
  have h62a : ¬ 62 ∈ lcl ++ 64 :: domain := by
    simp [List.mem_append, List.mem_cons, h62l, h62d]
  exact ⟨_, verp_encode policy f recips dk r lcl domain id hpa h60r h62a hids hsec h64l h64d,
    decode_encoded policy dk (realnameFix policy r) lcl domain id
      (realnameFix_ne_nil policy r) h60r h62l h62d h43d hid256 hid44 hsec⟩

/-- Witness for C1 at the concrete scenario of the specification. -/
theorem c1_round_trip_amended_witness :
    ∃ out,
      verp_from_recipients none (bytesOf (r"from@x.com"))
          [⟨true, some (bytesOf (r"principal-42"))⟩] [] = .ok out ∧
        principal_ids_from_verp none out [] = .ok [bytesOf (r"principal-42")] :=
  c1_round_trip_amended none (bytesOf (r"from@x.com"))
    [⟨true, some (bytesOf (r"principal-42"))⟩] [] [] (bytesOf (r"from"))
    (bytesOf (r"x.com")) (bytesOf (r"principal-42")) (by decide) (by decide) (by decide)
    (by decide) (by decide) (by decide) (by decide) (by decide) (by decide) (by decide)
    (by decide) (by decide) (by decide)

/-- Counterexample for C1: an id containing a comma (and no at sign) does
not round-trip — decode returns the two comma-separated fragments instead of
the single original id. -/
theorem c1_round_trip_counterexample :
    (verp_from_recipients none (bytesOf (r"from@x.com")) [⟨true, some [97, 44, 98]⟩] []
        >>= fun out => principal_ids_from_verp none out []) = .ok [[97], [98]] ∧
      ¬ (verp_from_recipients none (bytesOf (r"from@x.com")) [⟨true, some [97, 44, 98]⟩] []
          >>= fun out => principal_ids_from_verp none out []) = .ok [[97, 44, 98]] ∧
      ¬ (64 : Nat) ∈ [97, 44, 98] ∧ ([97, 44, 98] : List Nat) ≠ [] :=
  ⟨by decide, by decide, by decide, by decide⟩

/-- C8: when the recipients resolve to a number of distinct principal ids
different from one, the encode step is skipped and the address part of the
result is the parsed input address unmodified. -/
theorem c8_passthrough (policy : Option MailerPolicy) (f : List Nat)
    (recips : List Recipient) (dk r a : List Nat)
    (hpa : parseaddr f = (r, a)) (hne : ¬ (r = [] ∧ a = []))
    (h60r : ¬ 60 ∈ realnameFix policy r) (h62a : ¬ 62 ∈ a)
    (hlen : (resolvedIds recips).length ≠ 1) :
    verp_from_recipients policy f recips dk =
        .ok (dump_address_pair (realnameFix policy r) a) ∧
      (parseaddr (dump_address_pair (realnameFix policy r) a)).2 = a :=
  ⟨verp_passthrough policy f recips dk r a hpa hne h60r h62a hlen,
    by rw [parseaddr_dump _ _ (realnameFix_ne_nil policy r) h60r h62a]⟩

/-- Witness for C8 with zero resolved principal ids. -/
theorem c8_passthrough_witness :
    verp_from_recipients none (bytesOf (r"from@x.com")) [] [] =
        .ok (dump_address_pair (realnameFix none []) (bytesOf (r"from@x.com"))) ∧
      (parseaddr (dump_address_pair (realnameFix none []) (bytesOf (r"from@x.com")))).2 =
        bytesOf (r"from@x.com") :=
  c8_passthrough none (bytesOf (r"from@x.com")) [] [] [] (bytesOf (r"from@x.com"))
    (by decide) (by decide) (by decide) (by decide) (by decide)

/-- C9 (amended): with exactly one resolved principal id and a well-formed
signer, encode fails with the unpacking ValueError exactly when the parsed
address does not contain exactly one at sign, and with exactly one at sign
it splits there and splices the token in; the original claim, that one or
more at signs suffice for success with a split at the last one, is refuted
by c9_multiple_at_counterexample. -/
theorem c9_split_amended (policy : Option MailerPolicy) (f : List Nat)
    (recips : List Recipient) (dk r a pid : List Nat)
    (hpa : parseaddr f = (r, a)) (hne : ¬ (r = [] ∧ a = []))
    (h60r : ¬ 60 ∈ realnameFix policy r) (h62a : ¬ 62 ∈ a)
    (hids : resolvedIds recips = [pid])
    (hsec : resolvedSecret policy dk ≠ []) :
    (a.count 64 ≠ 1 → verp_from_recipients policy f recips dk = .error .valueError) ∧
      (∀ lcl domain, a = lcl ++ 64 :: domain → ¬ 64 ∈ lcl → ¬ 64 ∈ domain →
        verp_from_recipients policy f recips dk =
          .ok (dump_address_pair (realnameFix policy r)
            (lcl ++ 43 :: _sign ⟨resolvedSecret policy dk, emailRecipientSalt, 46⟩ pid
              ++ 64 :: domain))) := by
  constructor
  · intro hcount
    exact verp_unpack_fails policy f recips dk r a pid hpa hne h60r h62a hids hsec hcount
  · intro lcl domain he h64l h64d
    subst he
    exact verp_encode policy f recips dk r lcl domain pid hpa h60r h62a hids hsec h64l h64d

/-- Witness for C9 at a concrete address with one at sign. -/
theorem c9_split_amended_witness :
    verp_from_recipients none (bytesOf (r"from@x.com")) [⟨true, some [117]⟩] [] =
      .ok (dump_address_pair (realnameFix none [])
        (bytesOf (r"from") ++ 43 :: _sign ⟨resolvedSecret none [], emailRecipientSalt, 46⟩ [117]
          ++ 64 :: bytesOf (r"x.com"))) :=
  (c9_split_amended none (bytesOf (r"from@x.com")) [⟨true, some [117]⟩] [] []
      (bytesOf (r"from@x.com")) [117] (by decide) (by decide) (by decide) (by decide)
      (by decide) (by decide)).2
    (bytesOf (r"from")) (bytesOf (r"x.com")) (by decide) (by decide) (by decide)

/-- Counterexample for C9: an address with two at signs and one resolved
principal id makes encode fail with ValueError, where the claim requires
success with a split at the last at sign. -/
theorem c9_multiple_at_counterexample :
    verp_from_recipients none (bytesOf (r"a@b@c")) [⟨true, some [117]⟩] [] =
        .error .valueError ∧
      (64 : Nat) ∈ bytesOf (r"a@b@c") :=
  ⟨by decide, by decide⟩

/-- C10: whenever decode succeeds and returns a non-empty result, that
result is the recovered message split on commas — a list of one or more
byte strings — so an id containing a comma decodes to several ids rather
than the single original one, as the concrete conjunct shows. -/
theorem c10_split_on_comma :
    (∀ (policy : Option MailerPolicy) (f dk : List Nat) (l : List (List Nat)),
        principal_ids_from_verp policy f dk = .ok l → l ≠ [] →
        ∃ pids, l = pySplit 44 pids ∧ 1 ≤ l.length) ∧
      (verp_from_recipients none (bytesOf (r"from@x.com"))
          [⟨true, some (bytesOf (r"x,y,z"))⟩] []
        >>= fun out => principal_ids_from_verp none out []) =
        .ok [bytesOf (r"x"), bytesOf (r"y"), bytesOf (r"z")] := by
  constructor
  · intro policy f dk l h hl
    unfold principal_ids_from_verp at h
    by_cases h1 : f = [] ∨ ¬ (43 : Nat) ∈ f
    · rw [if_pos h1] at h
      exact absurd (Except.ok.inj h).symm hl
    · rw [if_neg h1] at h
      by_cases h2 : ¬ (43 : Nat) ∈ (parseaddr f).2
      · rw [if_pos h2] at h
        exact absurd (Except.ok.inj h).symm hl
      · rw [if_neg h2] at h
        rcases hms : __make_signer policy dk with e | S
        · rw [hms, except_bind_error] at h
          exact absurd h (by simp)
        · rw [hms, except_bind_ok] at h
          rcases hpi : pyIndex (pyRsplit1 43 (parseaddr f).2) 1 with e | ap
          · rw [hpi, except_bind_error] at h
            exact absurd h (by simp)
          · rw [hpi, except_bind_ok] at h
            rcases hpi0 : pyIndex (pySplit 64 ap) 0 with e | sae
            · rw [hpi0, except_bind_error] at h
              exact absurd h (by simp)
            · rw [hpi0, except_bind_ok] at h
              by_cases h3 : ¬ S.sep ∈ sae
              · rw [if_pos h3] at h
                exact absurd (Except.ok.inj h).symm hl
              · rw [if_neg h3] at h
                rcases hup : pyUnpack2 (pyRsplit1 S.sep sae) with e | parts
                · rw [hup, except_bind_error] at h
                  exact absurd h (by simp)
                · rw [hup, except_bind_ok] at h
                  simp only [] at h
                  rcases hu : S.unsign (unquote parts.1 ++ S.sep :: parts.2) with e | pids
                  · rw [hu] at h
                    exact absurd (Except.ok.inj h).symm hl
                  · rw [hu] at h
                    refine ⟨pids, (Except.ok.inj h).symm, ?_⟩
                    have := pySplit_ne_nil 44 pids
                    rw [← (Except.ok.inj h)]
                    rcases hq : pySplit 44 pids with _ | ⟨q, qs⟩
                    · exact absurd hq this
                    · simp
  · decide

/-- Witness for C10 at the comma-bearing concrete scenario. -/
theorem c10_split_on_comma_witness :
    ∃ pids,
      [bytesOf (r"x"), bytesOf (r"y"), bytesOf (r"z")] = pySplit 44 pids ∧
        1 ≤ ([bytesOf (r"x"), bytesOf (r"y"), bytesOf (r"z")] : List (List Nat)).length :=
  c10_split_on_comma.1 none
    [34, 78, 101, 120, 116, 84, 104, 111, 117, 103, 104, 116, 34, 32, 60, 102, 114, 111,
      109, 43, 120, 37, 50, 67, 121, 37, 50, 67, 122, 46, 84, 119, 79, 98, 69, 81, 64,
      120, 46, 99, 111, 109, 62] []
    [bytesOf (r"x"), bytesOf (r"y"), bytesOf (r"z")] (by decide) (by decide)

/-- The concrete encoded address used in the C5 counterexample: the output
of verp_from_recipients for id principal-42, from address from@x.com and the
default secret. -/
def addrC5 : List Nat :=
  [34, 78, 101, 120, 116, 84, 104, 111, 117, 103, 104, 116, 34, 32, 60, 102, 114, 111,
    109, 43, 112, 114, 105, 110, 99, 105, 112, 97, 108, 45, 52, 50, 46, 52, 81, 87, 86,
    78, 103, 64, 120, 46, 99, 111, 109, 62]

/-- The principal id embedded in addrC5. -/
def pidC5 : List Nat := bytesOf (r"principal-42")

theorem b64val_lt {c w : Nat} (h : b64val c = some w) : w < 64 := by
  unfold b64val at h
  split_ifs at h <;> simp only [Option.some.injEq] at h <;> omega

theorem b64val_inj {c w : Nat} (h : b64val c = some w) : c = b64char w := by
  unfold b64val at h
  unfold b64char
  split_ifs at h <;> simp only [Option.some.injEq] at h <;> split_ifs <;> omega

theorem b64decode_invalid {c : Nat} (hc : b64val c = none) :
    ∀ l : List Nat, c ∈ l → b64decodeRaw l = none
  | [], h => absurd h (List.not_mem_nil c)
  | [c1], _ => rfl
  | [c1, c2], h => by
    rcases h with _ | ⟨_, h⟩
    · simp [b64decodeRaw, hc]
    rcases h with _ | ⟨_, h⟩
    · cases hv : b64val c1 <;> simp [b64decodeRaw, hv, hc]
    · cases h
  | [c1, c2, c3], h => by
    rcases h with _ | ⟨_, h⟩
    · simp [b64decodeRaw, hc]
    rcases h with _ | ⟨_, h⟩
    · cases hv : b64val c1 <;> simp [b64decodeRaw, hv, hc]
    rcases h with _ | ⟨_, h⟩
    · cases hv : b64val c1 <;> cases hv2 : b64val c2 <;>
        simp [b64decodeRaw, hv, hv2, hc]
    · cases h
  | [c1, c2, c3, c4], h => by
    rcases h with _ | ⟨_, h⟩
    · simp [b64decodeRaw, hc]
    rcases h with _ | ⟨_, h⟩
    · cases hv : b64val c1 <;> simp [b64decodeRaw, hv, hc]
    rcases h with _ | ⟨_, h⟩
    · cases hv : b64val c1 <;> cases hv2 : b64val c2 <;>
        simp [b64decodeRaw, hv, hv2, hc]
    rcases h with _ | ⟨_, h⟩
    · cases hv : b64val c1 <;> cases hv2 : b64val c2 <;> cases hv3 : b64val c3 <;>
        simp [b64decodeRaw, hv, hv2, hv3, hc]
    · cases h
  | c1 :: c2 :: c3 :: c4 :: r1 :: rest, h => by
    rcases h with _ | ⟨_, h⟩
    · simp [b64decodeRaw, hc]
    rcases h with _ | ⟨_, h⟩
    · cases hv : b64val c1 <;> simp [b64decodeRaw, hv, hc]
    rcases h with _ | ⟨_, h⟩
    · cases hv : b64val c1 <;> cases hv2 : b64val c2 <;>
        simp [b64decodeRaw, hv, hv2, hc]
    rcases h with _ | ⟨_, h⟩
    · cases hv : b64val c1 <;> cases hv2 : b64val c2 <;> cases hv3 : b64val c3 <;>
        simp [b64decodeRaw, hv, hv2, hv3, hc]
    · have hr := b64decode_invalid hc (r1 :: rest) h
      cases hv : b64val c1 <;> cases hv2 : b64val c2 <;> cases hv3 : b64val c3 <;>
        cases hv4 : b64val c4 <;> simp [b64decodeRaw, hv, hv2, hv3, hv4, hr]

theorem b64decode_short :
    ∀ (l bytes : List Nat), b64decodeRaw l = some bytes → l.length ≤ 5 →
      bytes.length ≤ 3
  | [], bytes, h, _ => by
    simp only [b64decodeRaw, Option.some.injEq] at h
    simp [← h]
  | [c1], bytes, h, _ => by
    simp [b64decodeRaw] at h
  | [c1, c2], bytes, h, _ => by
    cases hv : b64val c1 <;> cases hv2 : b64val c2 <;>
      simp [b64decodeRaw, hv, hv2] at h <;> simp [← h]
  | [c1, c2, c3], bytes, h, _ => by
    cases hv : b64val c1 <;> cases hv2 : b64val c2 <;> cases hv3 : b64val c3 <;>
      simp [b64decodeRaw, hv, hv2, hv3] at h <;> simp [← h]
  | [c1, c2, c3, c4], bytes, h, _ => by
    cases hv : b64val c1 <;> cases hv2 : b64val c2 <;> cases hv3 : b64val c3 <;>
      cases hv4 : b64val c4 <;> simp [b64decodeRaw, hv, hv2, hv3, hv4] at h <;>
      simp [← h]
  | [c1, c2, c3, c4, c5], bytes, h, _ => by
    have : b64decodeRaw [c5] = none := rfl
    cases hv : b64val c1 <;> cases hv2 : b64val c2 <;> cases hv3 : b64val c3 <;>
      cases hv4 : b64val c4 <;>
      simp [b64decodeRaw, hv, hv2, hv3, hv4] at h
  | c1 :: c2 :: c3 :: c4 :: c5 :: c6 :: rest, bytes, h, hlen => by
    simp at hlen

theorem macBytes_length (S : SignerM) (u : List Nat) : (S.macBytes u).length = 4 := rfl

theorem get_signature_length (S : SignerM) (u : List Nat) :
    (S.get_signature u).length = 6 := rfl

theorem unsign_fail_short (S : SignerM) (hsep : S.sep = 46) (u p : List Nat)
    (h46p : ¬ 46 ∈ p) (hlen : p.length ≤ 5) :
    S.unsign (u ++ 46 :: p) = .error () := by
  unfold SignerM.unsign
  rw [hsep, splitLast_append u p h46p]
  simp only []
  rcases hb : b64decodeRaw p with _ | bytes
  · rfl
  · have hlb := b64decode_short p bytes hb hlen
    show (if bytes = S.macBytes u then Except.ok u else Except.error ()) = Except.error ()
    rw [if_neg]
    intro e
    have hl := congrArg List.length e
    rw [macBytes_length] at hl
    omega

theorem takeWhile_before {X : List Nat} (Y : List Nat) (h62 : ¬ 62 ∈ X) :
    ((X ++ 62 :: Y).takeWhile (· ≠ 62)) = X := by
  have hys : ∀ b ∈ X, (decide (b ≠ 62)) = true := by
    intro b hb
    rw [decide_eq_true_eq]
    exact fun e => h62 (e ▸ hb)
  have h62f : (decide ((62 : Nat) ≠ 62)) = false := by decide
  rw [List.takeWhile_append_of_pos hys, List.takeWhile_cons, h62f]
  simp

theorem parseaddr_dump_trunc (r a : List Nat) (hr : r ≠ []) (h60 : ¬ 60 ∈ r) :
    parseaddr (dump_address_pair r a) = (r, (a ++ [62]).takeWhile (· ≠ 62)) := by
  have hdump : dump_address_pair r a = ((34 :: r) ++ [34, 32]) ++ 60 :: (a ++ [62]) := by
    unfold dump_address_pair
    rw [if_pos hr]
    simp
  have hxs : ∀ b ∈ (34 :: r) ++ [34, 32], ¬ b = 60 := by
    intro b hb e
    subst e
    simp only [List.mem_append, List.mem_cons, List.not_mem_nil] at hb
    rcases hb with h | h
    · rcases h with h | h
      · omega
      · exact h60 h
    · rcases h with h | h | h
      · omega
      · omega
      · exact h
  rw [hdump, parseaddr_split _ _ hxs, parseName_quoted]

theorem decode_plus_in_sig (policy : Option MailerPolicy)
    (dk rf lcl domain q pre suf : List Nat)
    (hrf : rf ≠ []) (h60rf : ¬ 60 ∈ rf)
    (h62l : ¬ 62 ∈ lcl) (h62d : ¬ 62 ∈ domain) (h62q : ¬ 62 ∈ q)
    (h62p : ¬ 62 ∈ pre) (h62s : ¬ 62 ∈ suf)
    (h43d : ¬ 43 ∈ domain) (h43s : ¬ 43 ∈ suf)
    (h64s : ¬ 64 ∈ suf) (h46s : ¬ 46 ∈ suf)
    (hsec : resolvedSecret policy dk ≠ []) :
    principal_ids_from_verp policy
      (dump_address_pair rf
        (lcl ++ 43 :: (q ++ 46 :: (pre ++ 43 :: suf)) ++ 64 :: domain)) dk = .ok [] := by
  have hsep : (⟨resolvedSecret policy dk, emailRecipientSalt, 46⟩ : SignerM).sep = 46 := rfl
  have h62a2 : ¬ 62 ∈ lcl ++ 43 :: (q ++ 46 :: (pre ++ 43 :: suf)) ++ 64 :: domain := by
    simp [List.mem_append, List.mem_cons, h62l, h62d, h62q, h62p, h62s]
  have hfa_ne : dump_address_pair rf
      (lcl ++ 43 :: (q ++ 46 :: (pre ++ 43 :: suf)) ++ 64 :: domain) ≠ [] := by
    unfold dump_address_pair
    rw [if_pos hrf]
    simp
  have h43fa : (43 : Nat) ∈ dump_address_pair rf
      (lcl ++ 43 :: (q ++ 46 :: (pre ++ 43 :: suf)) ++ 64 :: domain) := by
    unfold dump_address_pair
    rw [if_pos hrf]
    simp
  have h43a2 : (43 : Nat) ∈ lcl ++ 43 :: (q ++ 46 :: (pre ++ 43 :: suf)) ++ 64 :: domain := by
    simp
  unfold principal_ids_from_verp
  rw [if_neg (not_or.mpr ⟨hfa_ne, not_not_intro h43fa⟩)]
  rw [parseaddr_dump rf _ hrf h60rf h62a2]
  simp only []
  rw [if_neg (not_not_intro h43a2)]
  rw [make_signer_ok policy dk hsec, except_bind_ok]
  have hys43 : ¬ 43 ∈ suf ++ 64 :: domain := by
    simp [List.mem_append, List.mem_cons, h43s, h43d]
  have hshape : lcl ++ 43 :: (q ++ 46 :: (pre ++ 43 :: suf)) ++ 64 :: domain =
      (lcl ++ 43 :: q ++ 46 :: pre) ++ 43 :: (suf ++ 64 :: domain) := by
    simp
  rw [hshape, pyRsplit1_append _ _ hys43, pyIndex_pair1, except_bind_ok]
  rw [pySplit_append domain h64s, pyIndex_cons0, except_bind_ok]
  rw [hsep, if_pos h46s]

theorem decode_at_in_sig (policy : Option MailerPolicy)
    (dk rf lcl domain q pre suf : List Nat)
    (hrf : rf ≠ []) (h60rf : ¬ 60 ∈ rf)
    (h62l : ¬ 62 ∈ lcl) (h62d : ¬ 62 ∈ domain) (h62q : ¬ 62 ∈ q)
    (h62p : ¬ 62 ∈ pre) (h62s : ¬ 62 ∈ suf)
    (h43d : ¬ 43 ∈ domain) (h43q : ¬ 43 ∈ q) (h43p : ¬ 43 ∈ pre) (h43s : ¬ 43 ∈ suf)
    (h64q : ¬ 64 ∈ q) (h64p : ¬ 64 ∈ pre)
    (h46p : ¬ 46 ∈ pre) (hplen : pre.length ≤ 5)
    (hsec : resolvedSecret policy dk ≠ []) :
    principal_ids_from_verp policy
      (dump_address_pair rf
        (lcl ++ 43 :: (q ++ 46 :: (pre ++ 64 :: suf)) ++ 64 :: domain)) dk = .ok [] := by
  have hsep : (⟨resolvedSecret policy dk, emailRecipientSalt, 46⟩ : SignerM).sep = 46 := rfl
  have h62a2 : ¬ 62 ∈ lcl ++ 43 :: (q ++ 46 :: (pre ++ 64 :: suf)) ++ 64 :: domain := by
    simp [List.mem_append, List.mem_cons, h62l, h62d, h62q, h62p, h62s]
  have hfa_ne : dump_address_pair rf
      (lcl ++ 43 :: (q ++ 46 :: (pre ++ 64 :: suf)) ++ 64 :: domain) ≠ [] := by
    unfold dump_address_pair
    rw [if_pos hrf]
    simp
  have h43fa : (43 : Nat) ∈ dump_address_pair rf
      (lcl ++ 43 :: (q ++ 46 :: (pre ++ 64 :: suf)) ++ 64 :: domain) := by
    unfold dump_address_pair
    rw [if_pos hrf]
    simp
  have h43a2 : (43 : Nat) ∈ lcl ++ 43 :: (q ++ 46 :: (pre ++ 64 :: suf)) ++ 64 :: domain := by
    simp
  unfold principal_ids_from_verp
  rw [if_neg (not_or.mpr ⟨hfa_ne, not_not_intro h43fa⟩)]
  rw [parseaddr_dump rf _ hrf h60rf h62a2]
  simp only []
  rw [if_neg (not_not_intro h43a2)]
  rw [make_signer_ok policy dk hsec, except_bind_ok]
  have hys43 : ¬ 43 ∈ (q ++ 46 :: (pre ++ 64 :: suf)) ++ 64 :: domain := by
    simp [List.mem_append, List.mem_cons, h43q, h43p, h43s, h43d]
  have hshape : lcl ++ 43 :: (q ++ 46 :: (pre ++ 64 :: suf)) ++ 64 :: domain =
      lcl ++ 43 :: ((q ++ 46 :: (pre ++ 64 :: suf)) ++ 64 :: domain) := by
    simp
  rw [hshape, pyRsplit1_append _ _ hys43, pyIndex_pair1, except_bind_ok]
  have hshape2 : (q ++ 46 :: (pre ++ 64 :: suf)) ++ 64 :: domain =
      (q ++ 46 :: pre) ++ 64 :: (suf ++ 64 :: domain) := by
    simp
  have h64qp : ¬ 64 ∈ q ++ 46 :: pre := by
    simp [List.mem_append, List.mem_cons, h64q, h64p]
  rw [hshape2, pySplit_append _ h64qp, pyIndex_cons0, except_bind_ok]
  have h46sae : (46 : Nat) ∈ q ++ 46 :: pre :=
    List.mem_append_right _ (List.mem_cons_self _ _)
  rw [hsep, if_neg (not_not_intro h46sae)]
  rw [pyRsplit1_append _ _ h46p, pyUnpack2_pair, except_bind_ok]
  simp only []
  rw [unsign_fail_short _ rfl _ _ h46p hplen]

theorem decode_gt_in_sig (policy : Option MailerPolicy)
    (dk rf lcl domain q pre suf : List Nat)
    (hrf : rf ≠ []) (h60rf : ¬ 60 ∈ rf)
    (h62l : ¬ 62 ∈ lcl) (h62q : ¬ 62 ∈ q) (h62p : ¬ 62 ∈ pre)
    (h43q : ¬ 43 ∈ q) (h43p : ¬ 43 ∈ pre)
    (h64q : ¬ 64 ∈ q) (h64p : ¬ 64 ∈ pre)
    (h46p : ¬ 46 ∈ pre) (hplen : pre.length ≤ 5)
    (hsec : resolvedSecret policy dk ≠ []) :
    principal_ids_from_verp policy
      (dump_address_pair rf
        (lcl ++ 43 :: (q ++ 46 :: (pre ++ 62 :: suf)) ++ 64 :: domain)) dk = .ok [] := by
  have hsep : (⟨resolvedSecret policy dk, emailRecipientSalt, 46⟩ : SignerM).sep = 46 := rfl
  have hfa_ne : dump_address_pair rf
      (lcl ++ 43 :: (q ++ 46 :: (pre ++ 62 :: suf)) ++ 64 :: domain) ≠ [] := by
    unfold dump_address_pair
    rw [if_pos hrf]
    simp
  have h43fa : (43 : Nat) ∈ dump_address_pair rf
      (lcl ++ 43 :: (q ++ 46 :: (pre ++ 62 :: suf)) ++ 64 :: domain) := by
    unfold dump_address_pair
    rw [if_pos hrf]
    simp
  unfold principal_ids_from_verp
  rw [if_neg (not_or.mpr ⟨hfa_ne, not_not_intro h43fa⟩)]
  rw [parseaddr_dump_trunc rf _ hrf h60rf]
  simp only []
  have hshape : (lcl ++ 43 :: (q ++ 46 :: (pre ++ 62 :: suf)) ++ 64 :: domain) ++ [62] =
      (lcl ++ 43 :: q ++ 46 :: pre) ++ 62 :: (suf ++ 64 :: domain ++ [62]) := by
    simp
  have h62X : ¬ 62 ∈ lcl ++ 43 :: q ++ 46 :: pre := by
    simp [List.mem_append, List.mem_cons, h62l, h62q, h62p]
  rw [hshape, takeWhile_before _ h62X]
  have h43X : (43 : Nat) ∈ lcl ++ 43 :: q ++ 46 :: pre := by
    simp
  rw [if_neg (not_not_intro h43X)]
  rw [make_signer_ok policy dk hsec, except_bind_ok]
  have hqp43 : ¬ 43 ∈ q ++ 46 :: pre := by
    simp [List.mem_append, List.mem_cons, h43q, h43p]
  have hshape2 : lcl ++ 43 :: q ++ 46 :: pre = lcl ++ 43 :: (q ++ 46 :: pre) := by
    simp
  rw [hshape2, pyRsplit1_append _ _ hqp43, pyIndex_pair1, except_bind_ok]
  have h64qp : ¬ 64 ∈ q ++ 46 :: pre := by
    simp [List.mem_append, List.mem_cons, h64q, h64p]
  rw [pySplit_not_mem h64qp, pyIndex_cons0, except_bind_ok]
  have h46sae : (46 : Nat) ∈ q ++ 46 :: pre :=
    List.mem_append_right _ (List.mem_cons_self _ _)
  rw [hsep, if_neg (not_not_intro h46sae)]
  rw [pyRsplit1_append _ _ h46p, pyUnpack2_pair, except_bind_ok]
  simp only []
  rw [unsign_fail_short _ rfl _ _ h46p hplen]

theorem decode_sep_in_sig (policy : Option MailerPolicy)
    (dk rf lcl domain q pre suf : List Nat)
    (hrf : rf ≠ []) (h60rf : ¬ 60 ∈ rf)
    (h62l : ¬ 62 ∈ lcl) (h62d : ¬ 62 ∈ domain) (h62q : ¬ 62 ∈ q)
    (h62p : ¬ 62 ∈ pre) (h62s : ¬ 62 ∈ suf)
    (h43d : ¬ 43 ∈ domain) (h43q : ¬ 43 ∈ q) (h43p : ¬ 43 ∈ pre) (h43s : ¬ 43 ∈ suf)
    (h64q : ¬ 64 ∈ q) (h64p : ¬ 64 ∈ pre) (h64s : ¬ 64 ∈ suf)
    (h46s : ¬ 46 ∈ suf) (hslen : suf.length ≤ 5)
    (hsec : resolvedSecret policy dk ≠ []) :
    principal_ids_from_verp policy
      (dump_address_pair rf
        (lcl ++ 43 :: (q ++ 46 :: (pre ++ 46 :: suf)) ++ 64 :: domain)) dk = .ok [] := by
  have hsep : (⟨resolvedSecret policy dk, emailRecipientSalt, 46⟩ : SignerM).sep = 46 := rfl
  have h62a2 : ¬ 62 ∈ lcl ++ 43 :: (q ++ 46 :: (pre ++ 46 :: suf)) ++ 64 :: domain := by
    simp [List.mem_append, List.mem_cons, h62l, h62d, h62q, h62p, h62s]
  have hfa_ne : dump_address_pair rf
      (lcl ++ 43 :: (q ++ 46 :: (pre ++ 46 :: suf)) ++ 64 :: domain) ≠ [] := by
    unfold dump_address_pair
    rw [if_pos hrf]
    simp
  have h43fa : (43 : Nat) ∈ dump_address_pair rf
      (lcl ++ 43 :: (q ++ 46 :: (pre ++ 46 :: suf)) ++ 64 :: domain) := by
    unfold dump_address_pair
    rw [if_pos hrf]
    simp
  have h43a2 : (43 : Nat) ∈ lcl ++ 43 :: (q ++ 46 :: (pre ++ 46 :: suf)) ++ 64 :: domain := by
    simp
  unfold principal_ids_from_verp
  rw [if_neg (not_or.mpr ⟨hfa_ne, not_not_intro h43fa⟩)]
  rw [parseaddr_dump rf _ hrf h60rf h62a2]
  simp only []
  rw [if_neg (not_not_intro h43a2)]
  rw [make_signer_ok policy dk hsec, except_bind_ok]
  have hys43 : ¬ 43 ∈ (q ++ 46 :: (pre ++ 46 :: suf)) ++ 64 :: domain := by
    simp [List.mem_append, List.mem_cons, h43q, h43p, h43s, h43d]
  have hshape : lcl ++ 43 :: (q ++ 46 :: (pre ++ 46 :: suf)) ++ 64 :: domain =
      lcl ++ 43 :: ((q ++ 46 :: (pre ++ 46 :: suf)) ++ 64 :: domain) := by
    simp
  rw [hshape, pyRsplit1_append _ _ hys43, pyIndex_pair1, except_bind_ok]
  have h64sae : ¬ 64 ∈ q ++ 46 :: (pre ++ 46 :: suf) := by
    simp [List.mem_append, List.mem_cons, h64q, h64p, h64s]
  rw [pySplit_append domain h64sae, pyIndex_cons0, except_bind_ok]
  have h46sae : (46 : Nat) ∈ q ++ 46 :: (pre ++ 46 :: suf) :=
    List.mem_append_right _ (List.mem_cons_self _ _)
  rw [hsep, if_neg (not_not_intro h46sae)]
  have hshape2 : q ++ 46 :: (pre ++ 46 :: suf) = (q ++ 46 :: pre) ++ 46 :: suf := by
    simp
  rw [hshape2, pyRsplit1_append _ _ h46s, pyUnpack2_pair, except_bind_ok]
  simp only []
  rw [unsign_fail_short _ rfl _ _ h46s hslen]

theorem b64set_ne_mac (n i c : Nat) (hi : i < 5)
    (hne : (b64encodeRaw (packInt32LE n)).set i c ≠ b64encodeRaw (packInt32LE n)) :
    b64decodeRaw ((b64encodeRaw (packInt32LE n)).set i c) ≠ some (packInt32LE n) := by
  have h1 : n % 256 < 256 := Nat.mod_lt _ (by omega)
  have h2 : n / 256 % 256 < 256 := Nat.mod_lt _ (by omega)
  have h3 : n / 65536 % 256 < 256 := Nat.mod_lt _ (by omega)
  have h4 : n / 16777216 % 256 < 256 := Nat.mod_lt _ (by omega)
  have he1 := b64val_b64char (n % 256 / 4) (by omega)
  have he2 := b64val_b64char (n % 256 % 4 * 16 + n / 256 % 256 / 16) (by omega)
  have he3 := b64val_b64char (n / 256 % 256 % 16 * 4 + n / 65536 % 256 / 64) (by omega)
  have he4 := b64val_b64char (n / 65536 % 256 % 64) (by omega)
  have he5 := b64val_b64char (n / 16777216 % 256 / 4) (by omega)
  have he6 := b64val_b64char (n / 16777216 % 256 % 4 * 16) (by omega)
  simp only [packInt32LE, b64encodeRaw] at hne ⊢
  interval_cases i
  · simp only [List.set] at hne ⊢
    intro hdec
    rcases hv : b64val c with _ | w
    · simp [b64decodeRaw, hv, he2, he3, he4, he5, he6] at hdec
    · have hw := b64val_lt hv
      have hcw := b64val_inj hv
      simp only [b64decodeRaw, hv, he2, he3, he4, he5, he6,
        Option.bind_eq_bind, Option.some_bind, Option.some.injEq,
        List.cons.injEq, and_true] at hdec
      have hwk : w = n % 256 / 4 := by omega
      exact hne (by rw [hcw, hwk])
  · simp only [List.set] at hne ⊢
    intro hdec
    rcases hv : b64val c with _ | w
    · simp [b64decodeRaw, hv, he1, he3, he4, he5, he6] at hdec
    · have hw := b64val_lt hv
      have hcw := b64val_inj hv
      simp only [b64decodeRaw, hv, he1, he3, he4, he5, he6,
        Option.bind_eq_bind, Option.some_bind, Option.some.injEq,
        List.cons.injEq, and_true] at hdec
      have hwk : w = n % 256 % 4 * 16 + n / 256 % 256 / 16 := by omega
      exact hne (by rw [hcw, hwk])
  · simp only [List.set] at hne ⊢
    intro hdec
    rcases hv : b64val c with _ | w
    · simp [b64decodeRaw, hv, he1, he2, he4, he5, he6] at hdec
    · have hw := b64val_lt hv
      have hcw := b64val_inj hv
      simp only [b64decodeRaw, hv, he1, he2, he4, he5, he6,
        Option.bind_eq_bind, Option.some_bind, Option.some.injEq,
        List.cons.injEq, and_true] at hdec
      have hwk : w = n / 256 % 256 % 16 * 4 + n / 65536 % 256 / 64 := by omega
      exact hne (by rw [hcw, hwk])
  · simp only [List.set] at hne ⊢
    intro hdec
    rcases hv : b64val c with _ | w
    · simp [b64decodeRaw, hv, he1, he2, he3, he5, he6] at hdec
    · have hw := b64val_lt hv
      have hcw := b64val_inj hv
      simp only [b64decodeRaw, hv, he1, he2, he3, he5, he6,
        Option.bind_eq_bind, Option.some_bind, Option.some.injEq,
        List.cons.injEq, and_true] at hdec
      have hwk : w = n / 65536 % 256 % 64 := by omega
      exact hne (by rw [hcw, hwk])
  · simp only [List.set] at hne ⊢
    intro hdec
    rcases hv : b64val c with _ | w
    · simp [b64decodeRaw, hv, he1, he2, he3, he4, he6] at hdec
    · have hw := b64val_lt hv
      have hcw := b64val_inj hv
      simp only [b64decodeRaw, hv, he1, he2, he3, he4, he6,
        Option.bind_eq_bind, Option.some_bind, Option.some.injEq,
        List.cons.injEq, and_true] at hdec
      have hwk : w = n / 16777216 % 256 / 4 := by omega
      exact hne (by rw [hcw, hwk])

/-- C5 (amended, universal): for every token produced by encode — any
well-formed from address, recipients resolving to one id, any secret —
changing any single byte of the signature portion (the six base64url
characters after the last separator of the token) makes decode return the
empty result exactly when the changed signature no longer decodes to the
original authentication code, and every change at one of the first five
positions always yields the empty result; only a change of the final
character that preserves its leading two bits — the trailing four bits are
padding dropped by the decoder — survives, returning the original id, which
refutes the unconditional claim (see c5_tamper_counterexample). -/
theorem c5_tamper_amended (policy : Option MailerPolicy) (f : List Nat)
    (recips : List Recipient) (dk r lcl domain id : List Nat)
    (hpa : parseaddr f = (r, lcl ++ 64 :: domain))
    (h60r : ¬ 60 ∈ realnameFix policy r)
    (h62l : ¬ 62 ∈ lcl) (h62d : ¬ 62 ∈ domain)
    (h64l : ¬ 64 ∈ lcl) (h64d : ¬ 64 ∈ domain)
    (h43d : ¬ 43 ∈ domain)
    (hids : resolvedIds recips = [id])
    (hid44 : ¬ 44 ∈ id) (hid256 : ∀ b ∈ id, b < 256)
    (hsec : resolvedSecret policy dk ≠ []) :
    verp_from_recipients policy f recips dk =
        .ok (dump_address_pair (realnameFix policy r)
          (lcl ++ 43 :: (quote id ++ 46 ::
              SignerM.get_signature ⟨resolvedSecret policy dk, emailRecipientSalt, 46⟩ id)
            ++ 64 :: domain)) ∧
      (∀ i, i < 6 → ∀ c, c < 256 →
        principal_ids_from_verp policy
            (dump_address_pair (realnameFix policy r)
              (lcl ++ 43 :: (quote id ++ 46 ::
                  (SignerM.get_signature
                    ⟨resolvedSecret policy dk, emailRecipientSalt, 46⟩ id).set i c)
                ++ 64 :: domain)) dk =
          .ok (if b64decodeRaw
                ((SignerM.get_signature
                  ⟨resolvedSecret policy dk, emailRecipientSalt, 46⟩ id).set i c) =
              some (SignerM.macBytes
                ⟨resolvedSecret policy dk, emailRecipientSalt, 46⟩ id)
            then [id] else [])) ∧
      (∀ i, i < 5 → ∀ c, c < 256 →
        (SignerM.get_signature
            ⟨resolvedSecret policy dk, emailRecipientSalt, 46⟩ id).set i c ≠
          SignerM.get_signature ⟨resolvedSecret policy dk, emailRecipientSalt, 46⟩ id →
        principal_ids_from_verp policy
            (dump_address_pair (realnameFix policy r)
              (lcl ++ 43 :: (quote id ++ 46 ::
                  (SignerM.get_signature
                    ⟨resolvedSecret policy dk, emailRecipientSalt, 46⟩ id).set i c)
                ++ 64 :: domain)) dk = .ok []) := by
  have hrf := realnameFix_ne_nil policy r
  have hq43 := not_43_mem_quote id
  have hq62 := not_62_mem_quote id
  have hq64 := not_64_mem_quote id
  have hS := (⟨resolvedSecret policy dk, emailRecipientSalt, 46⟩ : SignerM)
  have hB : ∀ i, i < 6 → ∀ c, c < 256 →
      principal_ids_from_verp policy
          (dump_address_pair (realnameFix policy r)
            (lcl ++ 43 :: (quote id ++ 46 ::
                (SignerM.get_signature
                  ⟨resolvedSecret policy dk, emailRecipientSalt, 46⟩ id).set i c)
              ++ 64 :: domain)) dk =
        .ok (if b64decodeRaw
              ((SignerM.get_signature
                ⟨resolvedSecret policy dk, emailRecipientSalt, 46⟩ id).set i c) =
            some (SignerM.macBytes
              ⟨resolvedSecret policy dk, emailRecipientSalt, 46⟩ id)
          then [id] else []) := by
    intro i hi c hc
    have hdecomp : (SignerM.get_signature
        ⟨resolvedSecret policy dk, emailRecipientSalt, 46⟩ id).set i c =
        (SignerM.get_signature
          ⟨resolvedSecret policy dk, emailRecipientSalt, 46⟩ id).take i ++
          c :: (SignerM.get_signature
            ⟨resolvedSecret policy dk, emailRecipientSalt, 46⟩ id).drop (i + 1) := by
      rw [List.set_eq_take_append_cons_drop,
        if_pos (show i < (SignerM.get_signature
            ⟨resolvedSecret policy dk, emailRecipientSalt, 46⟩ id).length by
          rw [get_signature_length]
          omega)]
    have hpre43 : ¬ 43 ∈ (SignerM.get_signature
        ⟨resolvedSecret policy dk, emailRecipientSalt, 46⟩ id).take i :=
      fun hm => not_43_mem_sig _ _ (List.mem_of_mem_take hm)
    have hpre46 : ¬ 46 ∈ (SignerM.get_signature
        ⟨resolvedSecret policy dk, emailRecipientSalt, 46⟩ id).take i :=
      fun hm => not_46_mem_sig _ _ (List.mem_of_mem_take hm)
    have hpre62 : ¬ 62 ∈ (SignerM.get_signature
        ⟨resolvedSecret policy dk, emailRecipientSalt, 46⟩ id).take i :=
      fun hm => not_62_mem_sig _ _ (List.mem_of_mem_take hm)
    have hpre64 : ¬ 64 ∈ (SignerM.get_signature
        ⟨resolvedSecret policy dk, emailRecipientSalt, 46⟩ id).take i :=
      fun hm => not_64_mem_sig _ _ (List.mem_of_mem_take hm)
    have hsuf43 : ¬ 43 ∈ (SignerM.get_signature
        ⟨resolvedSecret policy dk, emailRecipientSalt, 46⟩ id).drop (i + 1) :=
      fun hm => not_43_mem_sig _ _ (List.mem_of_mem_drop hm)
    have hsuf46 : ¬ 46 ∈ (SignerM.get_signature
        ⟨resolvedSecret policy dk, emailRecipientSalt, 46⟩ id).drop (i + 1) :=
      fun hm => not_46_mem_sig _ _ (List.mem_of_mem_drop hm)
    have hsuf62 : ¬ 62 ∈ (SignerM.get_signature
        ⟨resolvedSecret policy dk, emailRecipientSalt, 46⟩ id).drop (i + 1) :=
      fun hm => not_62_mem_sig _ _ (List.mem_of_mem_drop hm)
    have hsuf64 : ¬ 64 ∈ (SignerM.get_signature
        ⟨resolvedSecret policy dk, emailRecipientSalt, 46⟩ id).drop (i + 1) :=
      fun hm => not_64_mem_sig _ _ (List.mem_of_mem_drop hm)
    have hprelen : ((SignerM.get_signature
        ⟨resolvedSecret policy dk, emailRecipientSalt, 46⟩ id).take i).length ≤ 5 := by
      simp [List.length_take, get_signature_length]
      omega
    have hsuflen : ((SignerM.get_signature
        ⟨resolvedSecret policy dk, emailRecipientSalt, 46⟩ id).drop (i + 1)).length ≤ 5 := by
      simp [List.length_drop, get_signature_length]
    by_cases e43 : c = 43
    · subst e43
      rw [hdecomp,
        b64decode_invalid (show b64val 43 = none from rfl) _
          (List.mem_append_right _ (List.mem_cons_self _ _)),
        if_neg (by simp)]
      exact decode_plus_in_sig policy dk _ lcl domain (quote id) _ _ hrf h60r h62l h62d
        hq62 hpre62 hsuf62 h43d hsuf43 hsuf64 hsuf46 hsec
    by_cases e46 : c = 46
    · subst e46
      rw [hdecomp,
        b64decode_invalid (show b64val 46 = none from rfl) _
          (List.mem_append_right _ (List.mem_cons_self _ _)),
        if_neg (by simp)]
      exact decode_sep_in_sig policy dk _ lcl domain (quote id) _ _ hrf h60r h62l h62d
        hq62 hpre62 hsuf62 h43d hq43 hpre43 hsuf43 hq64 hpre64 hsuf64 hsuf46 hsuflen hsec
    by_cases e62 : c = 62
    · subst e62
      rw [hdecomp,
        b64decode_invalid (show b64val 62 = none from rfl) _
          (List.mem_append_right _ (List.mem_cons_self _ _)),
        if_neg (by simp)]
      exact decode_gt_in_sig policy dk _ lcl domain (quote id) _ _ hrf h60r h62l
        hq62 hpre62 hq43 hpre43 hq64 hpre64 hpre46 hprelen hsec
    by_cases e64 : c = 64
    · subst e64
      rw [hdecomp,
        b64decode_invalid (show b64val 64 = none from rfl) _
          (List.mem_append_right _ (List.mem_cons_self _ _)),
        if_neg (by simp)]
      exact decode_at_in_sig policy dk _ lcl domain (quote id) _ _ hrf h60r h62l h62d
        hq62 hpre62 hsuf62 h43d hq43 hpre43 hsuf43 hq64 hpre64 hpre46 hprelen hsec
    have hs43m : ¬ (43 : Nat) ∈ (SignerM.get_signature
        ⟨resolvedSecret policy dk, emailRecipientSalt, 46⟩ id).set i c := fun hm =>
      (List.mem_or_eq_of_mem_set hm).elim (not_43_mem_sig _ _) (fun e => e43 e.symm)
    have hs46m : ¬ (46 : Nat) ∈ (SignerM.get_signature
        ⟨resolvedSecret policy dk, emailRecipientSalt, 46⟩ id).set i c := fun hm =>
      (List.mem_or_eq_of_mem_set hm).elim (not_46_mem_sig _ _) (fun e => e46 e.symm)
    have hs62m : ¬ (62 : Nat) ∈ (SignerM.get_signature
        ⟨resolvedSecret policy dk, emailRecipientSalt, 46⟩ id).set i c := fun hm =>
      (List.mem_or_eq_of_mem_set hm).elim (not_62_mem_sig _ _) (fun e => e62 e.symm)
    have hs64m : ¬ (64 : Nat) ∈ (SignerM.get_signature
        ⟨resolvedSecret policy dk, emailRecipientSalt, 46⟩ id).set i c := fun hm =>
      (List.mem_or_eq_of_mem_set hm).elim (not_64_mem_sig _ _) (fun e => e64 e.symm)
    rw [decode_with_sig policy dk _ lcl domain (quote id) _ hrf h60r h62l h62d h43d
      hq43 hq62 hq64 hs43m hs46m hs62m hs64m hsec]
    rw [unquote_quote hid256]
    have hsep : (⟨resolvedSecret policy dk, emailRecipientSalt, 46⟩ : SignerM).sep = 46 :=
      rfl
    unfold SignerM.unsign
    rw [hsep, splitLast_append id _ hs46m]
    simp only []
    rcases hb : b64decodeRaw ((SignerM.get_signature
        ⟨resolvedSecret policy dk, emailRecipientSalt, 46⟩ id).set i c) with _ | bytes
    · simp
    · simp only []
      by_cases hbm : bytes = SignerM.macBytes
          ⟨resolvedSecret policy dk, emailRecipientSalt, 46⟩ id
      · rw [if_pos hbm, if_pos (congrArg Option.some hbm)]
        show Except.ok (pySplit 44 id) = Except.ok [id]
        rw [pySplit_not_mem hid44]
      · rw [if_neg hbm, if_neg (fun e => hbm (Option.some.inj e))]
  refine ⟨?_, hB, ?_⟩
  · have h62a : ¬ 62 ∈ lcl ++ 64 :: domain := by
      simp [List.mem_append, List.mem_cons, h62l, h62d]
    exact verp_encode policy f recips dk r lcl domain id hpa h60r h62a hids hsec h64l h64d
  · intro i hi c hc hneq
    have hcond : b64decodeRaw ((SignerM.get_signature
        ⟨resolvedSecret policy dk, emailRecipientSalt, 46⟩ id).set i c) ≠
        some (SignerM.macBytes
          ⟨resolvedSecret policy dk, emailRecipientSalt, 46⟩ id) := by
      simp only [SignerM.get_signature, SignerM.macBytes] at hneq ⊢
      exact b64set_ne_mac _ i c hi hneq
    rw [hB i (by omega) c hc, if_neg hcond]

/-- Witness for C5: a change of the first signature byte of a concretely
encoded token makes decode return the empty result. -/
theorem c5_tamper_amended_witness :
    principal_ids_from_verp none
      (dump_address_pair (realnameFix none [])
        (bytesOf (r"from") ++ 43 :: (quote (bytesOf (r"principal-42")) ++ 46 ::
            (SignerM.get_signature ⟨resolvedSecret none [], emailRecipientSalt, 46⟩
              (bytesOf (r"principal-42"))).set 0 65)
          ++ 64 :: bytesOf (r"x.com"))) [] = .ok [] :=
  (c5_tamper_amended none (bytesOf (r"from@x.com"))
      [⟨true, some (bytesOf (r"principal-42"))⟩] [] [] (bytesOf (r"from"))
      (bytesOf (r"x.com")) (bytesOf (r"principal-42")) (by decide) (by decide)
      (by decide) (by decide) (by decide) (by decide) (by decide) (by decide)
      (by decide) (by decide) (by decide)).2.2 0 (by decide) 65 (by decide) (by decide)

/-- Counterexample for C5: changing the final signature byte of the token
addrC5 from the letter g to the letter h leaves the decoded signature bytes
unchanged, so decode still returns the original id instead of the empty
result. -/
theorem c5_tamper_counterexample :
    verp_from_recipients none (bytesOf (r"from@x.com")) [⟨true, some pidC5⟩] [] =
        .ok addrC5 ∧
      ¬ addrC5.set 38 104 = addrC5 ∧
      principal_ids_from_verp none (addrC5.set 38 104) [] = .ok [pidC5] ∧
      ¬ principal_ids_from_verp none (addrC5.set 38 104) [] = .ok [] :=
  ⟨by decide, by decide, by decide, by decide⟩

end NtiMailer
